import Mathlib

/-!
Verification of the coordination logic of the amp-story entrance-animation
module (extensions/amp-story/0.1/animation.js).

The development shallowly embeds:
  - the AnimationSequence named-barrier bus (waitFor / notifyFinish), with
    promises represented as numeric ids in an explicit PromiseStore;
  - the AnimationRunner playback state machine (applyFirstFrame, start,
    finish, cancel, the single scheduled-activity slot, deferred execution
    once the host runner resolves, wait chaining through the bus and timer),
    as a step function over an explicit state driven by scheduler events;
  - the AnimationManager preset resolution and per-element runner creation;
  - the constructor timing fallback (JavaScript truthiness of numbers) and
    the negative-delay validation.

Asynchronous JavaScript control flow (promise `then` chains, vsync-batched
style mutations, timers) is modelled by explicit scheduler events; effects
that the module performs on its collaborators (host runner calls, style
writes, bus notifications) are recorded in an append-only effects trace.
-/

namespace StoryAnimation

/-! ## Association-list primitives

JavaScript object maps (`subscriptionPromises_`, `subscriptionResolvers_`)
and the runner-local wait table are modelled as association lists.
`setA` models property assignment, `eraseA` models the `delete` operator,
`lookupA` models property read. -/

def lookupA {α β : Type} [DecidableEq α] : List (α × β) → α → Option β
  | [], _ => none
  | (k, v) :: t, key => if k = key then some v else lookupA t key

def setA {α β : Type} [DecidableEq α] : List (α × β) → α → β → List (α × β)
  | [], key, v => [(key, v)]
  | (k, w) :: t, key, v =>
      if k = key then (key, v) :: t else (k, w) :: setA t key v

def eraseA {α β : Type} [DecidableEq α] : List (α × β) → α → List (α × β)
  | [], _ => []
  | (k, w) :: t, key => if k = key then t else (k, w) :: eraseA t key

/-! ## AnimationSequence (the named-barrier bus)

A promise is represented by a numeric id allocated from `PromiseStore.nextId`;
a promise is resolved exactly when its id is in `PromiseStore.resolved`.
`subscriptionPromises` and `subscriptionResolvers` mirror the two object maps
of the source; a resolver is identified with the promise id it resolves.
`notifyFinish` deletes only the promises entry, exactly as the source does. -/

structure PromiseStore where
  nextId : Nat
  resolved : List Nat
deriving DecidableEq

structure AnimationSequence where
  subscriptionPromises : List (String × Nat)
  subscriptionResolvers : List (String × Nat)
deriving DecidableEq

namespace AnimationSequence

def create : AnimationSequence := ⟨[], []⟩

/-- Model of AnimationSequence.waitFor: returns the in-flight promise for the
id if one exists, otherwise creates a fresh promise (and resolver) and
registers it under the id. -/
def waitFor (s : AnimationSequence) (st : PromiseStore) (i : String) :
    AnimationSequence × PromiseStore × Nat :=
  match lookupA s.subscriptionPromises i with
  | some p => (s, st, p)
  | none =>
      let p := st.nextId
      (⟨setA s.subscriptionPromises i p, setA s.subscriptionResolvers i p⟩,
       { st with nextId := p + 1 }, p)

/-- Model of AnimationSequence.notifyFinish: if a promise is registered under
the id, invoke its resolver (mark the promise resolved) and delete the
promises entry; otherwise do nothing. The resolvers entry is not deleted,
exactly as in the source. -/
def notifyFinish (s : AnimationSequence) (st : PromiseStore) (i : String) :
    AnimationSequence × PromiseStore :=
  if (lookupA s.subscriptionPromises i).isSome then
    match lookupA s.subscriptionResolvers i with
    | some p =>
        (⟨eraseA s.subscriptionPromises i, s.subscriptionResolvers⟩,
         { st with resolved := st.resolved ++ [p] })
    | none => (s, st)
  else (s, st)

end AnimationSequence

/-- Sequence component of the result of waitFor. -/
def waitForSeq (s : AnimationSequence) (st : PromiseStore) (i : String) :
    AnimationSequence :=
  (AnimationSequence.waitFor s st i).1

/-- Store component of the result of waitFor. -/
def waitForStore (s : AnimationSequence) (st : PromiseStore) (i : String) :
    PromiseStore :=
  (AnimationSequence.waitFor s st i).2.1

/-- The promise returned by waitFor. -/
def waitForProm (s : AnimationSequence) (st : PromiseStore) (i : String) : Nat :=
  (AnimationSequence.waitFor s st i).2.2

/-- Sequence component of the result of notifyFinish. -/
def notifySeq (s : AnimationSequence) (st : PromiseStore) (i : String) :
    AnimationSequence :=
  (AnimationSequence.notifyFinish s st i).1

/-- Store component of the result of notifyFinish. -/
def notifyStore (s : AnimationSequence) (st : PromiseStore) (i : String) :
    PromiseStore :=
  (AnimationSequence.notifyFinish s st i).2

/-- Well-formedness of a bus state: registered ids and promise ids are
duplicate-free, every registered promise has its resolver registered under
the same id, is unresolved, and was allocated from the store; resolved ids
were allocated from the store. Every state reachable from the empty bus by
waitFor and notifyFinish satisfies this. -/
def SeqWF (s : AnimationSequence) (st : PromiseStore) : Prop :=
  (s.subscriptionPromises.map Prod.fst).Nodup
  ∧ (s.subscriptionPromises.map Prod.snd).Nodup
  ∧ (∀ kp ∈ s.subscriptionPromises,
      lookupA s.subscriptionResolvers kp.1 = some kp.2
      ∧ kp.2 < st.nextId ∧ kp.2 ∉ st.resolved)
  ∧ (∀ r ∈ st.resolved, r < st.nextId)

/-! ## Constructor timing fallback and delay validation

The AnimationRunner constructor computes
  delay_ = animationDef.delay || presetDef.delay || 0
  duration_ = animationDef.duration || presetDef.duration || 0
using JavaScript truthiness of numbers (0 is falsy, as is an absent field),
and then performs the single user-facing validation
  user().assert(delay_ >= 0, ...). -/

/-- Truthiness of an optional JavaScript number: absent (undefined) and 0 are
falsy; every other number is truthy. -/
def truthyNum : Option Int → Bool
  | none => false
  | some v => v ≠ 0

/-- Model of the constructor expression declared || presetDefault || 0 for
both delay and duration. -/
def effectiveMs (declared presetDefault : Option Int) : Int :=
  if truthyNum declared then declared.getD 0
  else if truthyNum presetDefault then presetDefault.getD 0
  else 0

def NEGATIVE_DELAY_MESSAGE : String :=
  "Negative delays are not allowed in amp-story entrance animations."

/-- Model of the user-facing diagnostics emitted by the AnimationRunner
constructor about the effective delay: the single assert on line 143 rejects
a negative delay and is the only user-level validation the constructor
performs on it. -/
def constructorUserDiagnostics (delayMs : Int) : List String :=
  if 0 ≤ delayMs then [] else [NEGATIVE_DELAY_MESSAGE]

/-! ## AnimationManager preset resolution and runner creation

`getPreset_` reads the animate-in attribute and asserts the name is in the
preset table (user-facing diagnostic otherwise). `getOrCreateRunners_` maps
`createRunner_` over the discovered elements; the external user-level assert
in the source aborts the computation it occurs in with the diagnostic, so
the map is a monadic map in the exception monad. -/

def ANIMATE_IN_ATTRIBUTE_NAME : String := "animate-in"

/-- Placeholder for the preset payload (keyframe generator and timing); its
content is irrelevant to the claims about resolution. -/
structure StoryAnimationPresetDef where
  marker : Nat
deriving DecidableEq

/-- An animatable element as the Manager sees it: the value of its animate-in
attribute (the preset name) and its tag name (used in the diagnostic). -/
structure ManagedElement where
  animateIn : String
  tagName : String
deriving DecidableEq

/-- Diagnostic text of the preset assert, naming the attribute and the
invalid value, as formatted on lines 578-583 of the source. -/
def invalidPresetMessage (el : ManagedElement) : String :=
  "Invalid " ++ ANIMATE_IN_ATTRIBUTE_NAME ++ " preset \"" ++ el.animateIn ++
    "\" for element " ++ el.tagName

/-- Model of AnimationManager.getPreset_. -/
def getPreset (presets : List (String × StoryAnimationPresetDef))
    (el : ManagedElement) : Except String StoryAnimationPresetDef :=
  match lookupA presets el.animateIn with
  | some p => Except.ok p
  | none => Except.error (invalidPresetMessage el)

/-- Model of AnimationManager.createRunner_: resolve the preset and build the
per-element animation definition (the runner construction itself needs no
further Manager-level validation relevant here). -/
def createRunnerDef (presets : List (String × StoryAnimationPresetDef))
    (el : ManagedElement) :
    Except String (ManagedElement × StoryAnimationPresetDef) :=
  (getPreset presets el).map fun p => (el, p)

/-- Model of AnimationManager.getOrCreateRunners_: a synchronous map of
createRunner_ over the animatable elements; a thrown diagnostic propagates
out of the map, so no runners array is stored. -/
def getOrCreateRunners (presets : List (String × StoryAnimationPresetDef)) :
    List ManagedElement →
    Except String (List (ManagedElement × StoryAnimationPresetDef))
  | [] => Except.ok []
  | el :: rest =>
      match createRunnerDef presets el with
      | Except.ok r => (getOrCreateRunners presets rest).map fun rs => r :: rs
      | Except.error e => Except.error e

/-- The runner constructions that actually execute before the map aborts:
elements strictly before the first failing element. -/
def runnersCreatedBeforeFailure (presets : List (String × StoryAnimationPresetDef)) :
    List ManagedElement → List (ManagedElement × StoryAnimationPresetDef)
  | [] => []
  | el :: rest =>
      match createRunnerDef presets el with
      | Except.ok r => r :: runnersCreatedBeforeFailure presets rest
      | Except.error _ => []

/-! ## The AnimationRunner playback state machine

State fields mirror the private fields of AnimationRunner; `waits` is the
table of start-wait promise chains built by getStartWaitPromise_ (a chain is
subscribing to the bus, then waiting on the bus promise, then waiting on the
timer if a delay is configured, then resolved); `conts` are the pending
then-continuations installed by playbackWhenReady_, each remembering the
activity value it captured and the wait promise it is attached to. The
ghost fields notifyLog, schedLog and execGens record, respectively, every
invocation of AnimationSequence.notifyFinish, the order in which playback
activities were scheduled, and which scheduled activities were dispatched. -/

inductive PlaybackActivity where
  | start
  | finish
deriving DecidableEq

inductive WebAnimationPlayState where
  | idle
  | running
  | finished
deriving DecidableEq

/-- Stages of the start-wait promise chain built by getStartWaitPromise_. -/
inductive WStage where
  | subscribing (depId : String)
  | waitingSeq (p : Nat)
  | waitingTimer
  | resolvedW
deriving DecidableEq

/-- A pending then-continuation installed by playbackWhenReady_. -/
structure Cont where
  gen : Nat
  activity : PlaybackActivity
  wait : Option Nat
deriving DecidableEq

/-- Observable actions of the runner on its collaborators. -/
inductive Effect where
  | hostStart
  | hostResume
  | hostFinish
  | hostCancel
  | styleWrite
  | resetStyles
  | notifyBus (i : String)
deriving DecidableEq

/-- Scheduler and API events driving one AnimationRunner. -/
inductive Event where
  | apiApplyFirstFrame
  | apiStart
  | apiFinish
  | apiCancel
  | runnerResolve
  | notify (i : String)
  | advanceWait (w : Nat)
  | timerFire (w : Nat)
  | fireCont (i : Nat)
  | hostFinished
deriving DecidableEq

/-- The per-runner animation definition data the claims depend on: the target
element id, the optional declared dependency, and the effective delay. -/
structure RConfig where
  targetId : Option String
  startAfterId : Option String
  delay : Nat
deriving DecidableEq

structure RState where
  runnerResolved : Bool
  playState : WebAnimationPlayState
  scheduledActivity : Option PlaybackActivity
  scheduledWait : Option Nat
  scheduledGen : Nat
  runnerReset : Bool
  firstFrameApplied : Bool
  waits : List (Nat × WStage)
  nextWait : Nat
  conts : List Cont
  nextGen : Nat
  seq : AnimationSequence
  store : PromiseStore
  effects : List Effect
  notifyLog : List String
  schedLog : List Nat
  execGens : List Nat
  devError : Bool
deriving DecidableEq

def initState : RState :=
  { runnerResolved := false
    playState := WebAnimationPlayState.idle
    scheduledActivity := none
    scheduledWait := none
    scheduledGen := 0
    runnerReset := true
    firstFrameApplied := false
    waits := []
    nextWait := 0
    conts := []
    nextGen := 0
    seq := AnimationSequence.create
    store := ⟨0, []⟩
    effects := []
    notifyLog := []
    schedLog := []
    execGens := []
    devError := false }

/-- A notifyFinish invocation on the shared bus: resolve and delete the
in-flight wait for the id if there is one, and record the invocation. -/
def seqNotify (s : RState) (i : String) : RState :=
  let r := AnimationSequence.notifyFinish s.seq s.store i
  { s with seq := r.1, store := r.2, notifyLog := s.notifyLog ++ [i] }

/-- Model of AnimationRunner.notifyFinish_: notify the bus with the target
element id when it has one. -/
def notifyFinishR (cfg : RConfig) (s : RState) : RState :=
  match cfg.targetId with
  | some i =>
      let s1 := seqNotify s i
      { s1 with effects := s1.effects ++ [Effect.notifyBus i] }
  | none => s

/-- Model of AnimationRunner.resetFirstFrame_. -/
def resetFirstFrame (s : RState) : RState :=
  if s.firstFrameApplied then
    { s with firstFrameApplied := false, effects := s.effects ++ [Effect.resetStyles] }
  else s

/-- Model of AnimationRunner.applyFirstFrame. -/
def applyFirstFrameF (s : RState) : RState :=
  if s.firstFrameApplied then s
  else { s with firstFrameApplied := true, effects := s.effects ++ [Effect.styleWrite] }

/-- Model of AnimationRunner.hasStarted. -/
def hasStartedP (s : RState) : Prop :=
  s.scheduledActivity = some PlaybackActivity.start ∨
    (s.runnerResolved = true ∧ s.playState = WebAnimationPlayState.running)

instance (s : RState) : Decidable (hasStartedP s) := by
  unfold hasStartedP
  infer_instance

/-- Model of AnimationRunner.playback_: overwrite the one-slot scheduled
activity (and its wait), and if the host runner has already resolved,
install the then-continuation right away. -/
def playbackF (a : PlaybackActivity) (w : Option Nat) (s : RState) : RState :=
  let g := s.nextGen
  { s with
    scheduledActivity := some a
    scheduledWait := w
    scheduledGen := g
    nextGen := g + 1
    schedLog := s.schedLog ++ [g]
    conts := if s.runnerResolved then s.conts ++ [⟨g, a, w⟩] else s.conts }

/-- Initial stage of the wait built by getStartWaitPromise_: subscribe to the
dependency if declared, else arm the timer if a delay is configured, else an
already-resolved wait. -/
def mkWaitStage (cfg : RConfig) : WStage :=
  match cfg.startAfterId with
  | some d => WStage.subscribing d
  | none => if 0 < cfg.delay then WStage.waitingTimer else WStage.resolvedW

/-- Model of AnimationRunner.start. -/
def apiStartF (cfg : RConfig) (s : RState) : RState :=
  if hasStartedP s then s
  else
    let w := s.nextWait
    let s1 := { s with waits := s.waits ++ [(w, mkWaitStage cfg)], nextWait := w + 1 }
    playbackF PlaybackActivity.start (some w) s1

/-- Model of AnimationRunner.finish: notify the bus (gated on
firstFrameApplied), then reset first-frame styles, then schedule FINISH. -/
def apiFinishF (cfg : RConfig) (s : RState) : RState :=
  let s1 := if s.firstFrameApplied then notifyFinishR cfg s else s
  let s2 := resetFirstFrame s1
  playbackF PlaybackActivity.finish none s2

/-- Model of AnimationRunner.cancel: clear the scheduled-activity slot first,
then cancel the host runner only if the animation has started. The branch
that would dereference an unresolved runner records a developer-assert
failure. -/
def apiCancelF (s : RState) : RState :=
  let s1 := { s with scheduledActivity := none, scheduledWait := none }
  if hasStartedP s1 then
    if s1.runnerResolved then
      { s1 with
        effects := s1.effects ++ [Effect.hostCancel]
        playState := WebAnimationPlayState.idle
        runnerReset := true }
    else { s1 with devError := true }
  else s1

/-- Model of AnimationRunner.startWhenReady_. -/
def startWhenReadyF (s : RState) : RState :=
  let shouldStart := s.runnerReset
  let s1 := resetFirstFrame { s with runnerReset := false }
  { s1 with
    effects := s1.effects ++ [if shouldStart then Effect.hostStart else Effect.hostResume]
    playState := WebAnimationPlayState.running }

/-- Model of AnimationRunner.finishWhenReady_: a host finish only when the
play state is RUNNING; the play-state subscription then notifies the bus. -/
def finishWhenReadyF (cfg : RConfig) (s : RState) : RState :=
  if s.playState = WebAnimationPlayState.running then
    notifyFinishR cfg
      { s with
        effects := s.effects ++ [Effect.hostFinish]
        playState := WebAnimationPlayState.finished
        runnerReset := true }
  else s

/-- Dispatch of the activity switch in playbackWhenReady_ (ghost-records the
generation of the scheduling that is dispatched). -/
def execA (cfg : RConfig) (a : PlaybackActivity) (g : Nat) (s : RState) : RState :=
  match a with
  | PlaybackActivity.start => startWhenReadyF { s with execGens := s.execGens ++ [g] }
  | PlaybackActivity.finish => finishWhenReadyF cfg { s with execGens := s.execGens ++ [g] }

/-- Resolution of the wait promise a continuation is attached to. -/
def waitResolvedFor (s : RState) : Option Nat → Prop
  | none => True
  | some w => lookupA s.waits w = some WStage.resolvedW

instance (s : RState) : (o : Option Nat) → Decidable (waitResolvedFor s o)
  | none => isTrue trivial
  | some _ => inferInstanceAs (Decidable (_ = _))

/-- Firing of one pending then-continuation (only possible once its wait has
resolved): the supersession check of playbackWhenReady_ compares the captured
activity value against the current slot, clears the slot and dispatches. -/
def fireContF (cfg : RConfig) (i : Nat) (s : RState) : RState :=
  match s.conts.get? i with
  | none => s
  | some c =>
      if waitResolvedFor s c.wait then
        if s.scheduledActivity = some c.activity then
          execA cfg c.activity c.gen
            { s with
              conts := s.conts.eraseIdx i
              scheduledActivity := none
              scheduledWait := none }
        else { s with conts := s.conts.eraseIdx i }
      else s

/-- Model of AnimationRunner.onRunnerReady_: mark the runner resolved and, if
an activity is scheduled, install its then-continuation. -/
def runnerResolveF (s : RState) : RState :=
  if s.runnerResolved then s
  else
    match s.scheduledActivity with
    | some a =>
        { s with
          runnerResolved := true
          conts := s.conts ++ [⟨s.scheduledGen, a, s.scheduledWait⟩] }
    | none => { s with runnerResolved := true }

/-- Natural completion of the host animation: the play-state subscription
installed in onRunnerReady_ notifies the bus on FINISHED. -/
def hostFinishedF (cfg : RConfig) (s : RState) : RState :=
  if s.runnerResolved = true ∧ s.playState = WebAnimationPlayState.running then
    notifyFinishR cfg { s with playState := WebAnimationPlayState.finished }
  else s

/-- Microtask progress of a start-wait chain: perform the deferred
sequence.waitFor subscription, or move past a resolved bus promise to the
timer stage (or directly to resolved when no delay is configured). -/
def advanceWaitF (cfg : RConfig) (w : Nat) (s : RState) : RState :=
  match lookupA s.waits w with
  | some (WStage.subscribing d) =>
      let r := AnimationSequence.waitFor s.seq s.store d
      { s with
        seq := r.1
        store := r.2.1
        waits := setA s.waits w (WStage.waitingSeq r.2.2) }
  | some (WStage.waitingSeq p) =>
      if p ∈ s.store.resolved then
        { s with
          waits := setA s.waits w
            (if 0 < cfg.delay then WStage.waitingTimer else WStage.resolvedW) }
      else s
  | _ => s

/-- Expiry of the timer armed after the dependency stage. -/
def timerFireF (w : Nat) (s : RState) : RState :=
  match lookupA s.waits w with
  | some WStage.waitingTimer => { s with waits := setA s.waits w WStage.resolvedW }
  | _ => s

def step (cfg : RConfig) (s : RState) : Event → RState
  | Event.apiApplyFirstFrame => applyFirstFrameF s
  | Event.apiStart => apiStartF cfg s
  | Event.apiFinish => apiFinishF cfg s
  | Event.apiCancel => apiCancelF s
  | Event.runnerResolve => runnerResolveF s
  | Event.notify i => seqNotify s i
  | Event.advanceWait w => advanceWaitF cfg w s
  | Event.timerFire w => timerFireF w s
  | Event.fireCont i => fireContF cfg i s
  | Event.hostFinished => hostFinishedF cfg s

def run (cfg : RConfig) (events : List Event) : RState :=
  events.foldl (step cfg) initState

/-- Host start or resume appears in an effects trace. -/
def hasStartOrResume (l : List Effect) : Prop :=
  Effect.hostStart ∈ l ∨ Effect.hostResume ∈ l

instance (l : List Effect) : Decidable (hasStartOrResume l) := by
  unfold hasStartOrResume
  infer_instance

/-- No host start, resume or finish call appears in an effects trace. -/
def noHostSRF (l : List Effect) : Prop :=
  Effect.hostStart ∉ l ∧ Effect.hostResume ∉ l ∧ Effect.hostFinish ∉ l

instance (l : List Effect) : Decidable (noHostSRF l) := by
  unfold noHostSRF
  infer_instance

/-- A runner state from which no host start, resume or finish call can ever
be produced unless a new start() or finish() request arrives: the slot is
empty, no continuation is pending, no host start/resume/finish has happened,
and the host animation is not running. -/
def CancelledQuiescent (s : RState) : Prop :=
  s.scheduledActivity = none ∧ s.conts = [] ∧ noHostSRF s.effects
  ∧ s.playState ≠ WebAnimationPlayState.running

/-- Recognizer for timer-expiry events. -/
def isTimerFire : Event → Bool
  | Event.timerFire _ => true
  | _ => false

/-- Invariant for a runner configured with a startAfterId dependency: every
pending START continuation (and a START slot) carries a start-wait; every
subscription stage and every bus registration is for the dependency id; and
as long as notifyFinish has never been invoked for the dependency id, no bus
promise has resolved, every start-wait is still at or before its
bus-subscription stage, no host start or resume has been issued, and the
host animation is not running. -/
def DepInv (dep : String) (s : RState) : Prop :=
  (∀ c ∈ s.conts, c.activity = PlaybackActivity.start → ∃ w, c.wait = some w)
  ∧ (s.scheduledActivity = some PlaybackActivity.start → ∃ w, s.scheduledWait = some w)
  ∧ (∀ w d, (w, WStage.subscribing d) ∈ s.waits → d = dep)
  ∧ (∀ kp ∈ s.seq.subscriptionPromises, kp.1 = dep)
  ∧ (dep ∉ s.notifyLog →
      s.store.resolved = []
      ∧ (∀ wp ∈ s.waits,
          (∃ d, wp.2 = WStage.subscribing d) ∨ ∃ p, wp.2 = WStage.waitingSeq p)
      ∧ ¬hasStartOrResume s.effects
      ∧ s.playState ≠ WebAnimationPlayState.running)

/-- Invariant for the timer-chaining part of the start wait: with a declared
dependency and a positive delay, as long as no timer has fired no start-wait
has fully resolved, so no host start or resume has been issued and the host
animation is not running. -/
def TimerGateInv (s : RState) : Prop :=
  (∀ c ∈ s.conts, c.activity = PlaybackActivity.start → ∃ w, c.wait = some w)
  ∧ (s.scheduledActivity = some PlaybackActivity.start → ∃ w, s.scheduledWait = some w)
  ∧ (∀ wp ∈ s.waits, wp.2 ≠ WStage.resolvedW)
  ∧ ¬hasStartOrResume s.effects
  ∧ s.playState ≠ WebAnimationPlayState.running

/-- Inductive invariant of the runner machine: scheduled-activity generations
are allocated in order and never reused; a generation is dispatched at most
once; before the host runner resolves no continuation has been installed, no
activity has been dispatched, no host start, resume or finish call has been
made, and the host play state is still idle. -/
def MachineInv (s : RState) : Prop :=
  (s.conts.map Cont.gen).Nodup
  ∧ (∀ c ∈ s.conts, c.gen < s.nextGen ∧ c.gen ∉ s.execGens)
  ∧ s.execGens.Nodup
  ∧ (∀ g ∈ s.execGens, g < s.nextGen)
  ∧ (s.runnerResolved = false →
      s.conts = [] ∧ s.execGens = [] ∧ noHostSRF s.effects
      ∧ s.playState = WebAnimationPlayState.idle)
  ∧ (s.scheduledActivity.isSome → s.scheduledGen < s.nextGen)

/-! ## Association-list lemmas -/

theorem lookupA_mem {α β : Type} [DecidableEq α] :
    ∀ (l : List (α × β)) (k : α) (v : β), lookupA l k = some v → (k, v) ∈ l := by
  intro l
  induction l with
  | nil => intro k v h; simp [lookupA] at h
  | cons p t ih =>
      intro k v h
      obtain ⟨pk, pv⟩ := p
      by_cases hk : pk = k
      · subst hk
        simp [lookupA] at h
        subst h
        exact List.mem_cons_self _ _
      · simp [lookupA, hk] at h
        exact List.mem_cons_of_mem _ (ih k v h)

theorem lookupA_none_of_keys {α β : Type} [DecidableEq α]
    (l : List (α × β)) (k : α) (h : ∀ p ∈ l, p.1 ≠ k) : lookupA l k = none := by
  induction l with
  | nil => rfl
  | cons p t ih =>
      obtain ⟨pk, pv⟩ := p
      have hk : pk ≠ k := h (pk, pv) (List.mem_cons_self _ _)
      simp [lookupA, hk]
      exact ih fun q hq => h q (List.mem_cons_of_mem _ hq)

theorem mem_setA {α β : Type} [DecidableEq α] :
    ∀ (l : List (α × β)) (key : α) (v : β) (p : α × β),
      p ∈ setA l key v → p = (key, v) ∨ p ∈ l := by
  intro l
  induction l with
  | nil =>
      intro key v p hp
      simp [setA] at hp
      exact Or.inl hp
  | cons q t ih =>
      intro key v p hp
      obtain ⟨qk, qv⟩ := q
      by_cases hk : qk = key
      · subst hk
        simp [setA] at hp
        rcases hp with h | h
        · exact Or.inl (by simp [h])
        · exact Or.inr (List.mem_cons_of_mem _ h)
      · simp [setA, hk] at hp
        rcases hp with h | h
        · exact Or.inr (by simp [h])
        · rcases ih key v p h with h2 | h2
          · exact Or.inl h2
          · exact Or.inr (List.mem_cons_of_mem _ h2)

theorem mem_eraseA {α β : Type} [DecidableEq α] :
    ∀ (l : List (α × β)) (key : α) (p : α × β), p ∈ eraseA l key → p ∈ l := by
  intro l
  induction l with
  | nil => intro key p hp; simp [eraseA] at hp
  | cons q t ih =>
      intro key p hp
      obtain ⟨qk, qv⟩ := q
      rw [List.mem_cons]
      by_cases hk : qk = key
      · subst hk
        simp [eraseA] at hp
        exact Or.inr hp
      · simp [eraseA, hk] at hp
        rcases hp with h | h
        · exact Or.inl (by simp [h])
        · exact Or.inr (ih key p h)

theorem lookupA_setA_self {α β : Type} [DecidableEq α] :
    ∀ (l : List (α × β)) (key : α) (v : β), lookupA (setA l key v) key = some v := by
  intro l
  induction l with
  | nil => intro key v; simp [setA, lookupA]
  | cons q t ih =>
      intro key v
      obtain ⟨qk, qv⟩ := q
      by_cases hk : qk = key
      · subst hk; simp [setA, lookupA]
      · simp [setA, lookupA, hk]
        exact ih key v

theorem lookupA_setA_ne {α β : Type} [DecidableEq α] :
    ∀ (l : List (α × β)) (key k2 : α) (v : β), k2 ≠ key →
      lookupA (setA l key v) k2 = lookupA l k2 := by
  intro l
  induction l with
  | nil =>
      intro key k2 v hne
      have hne2 : ¬key = k2 := fun h => hne h.symm
      simp [setA, lookupA, hne2]
  | cons q t ih =>
      intro key k2 v hne
      have hne2 : ¬key = k2 := fun h => hne h.symm
      obtain ⟨qk, qv⟩ := q
      by_cases hk : qk = key
      · subst hk
        simp [setA, lookupA, hne2]
      · simp only [setA, if_neg hk]
        by_cases h2 : qk = k2
        · subst h2; simp [lookupA]
        · simp only [lookupA, if_neg h2]
          exact ih key k2 v hne

theorem lookupA_eraseA_ne {α β : Type} [DecidableEq α] :
    ∀ (l : List (α × β)) (key k2 : α), k2 ≠ key →
      lookupA (eraseA l key) k2 = lookupA l k2 := by
  intro l
  induction l with
  | nil => intro key k2 _; rfl
  | cons q t ih =>
      intro key k2 hne
      have hne2 : ¬key = k2 := fun h => hne h.symm
      obtain ⟨qk, qv⟩ := q
      by_cases hk : qk = key
      · subst hk
        simp [eraseA, lookupA, hne2]
      · by_cases h2 : qk = k2
        · subst h2; simp [eraseA, lookupA, hk]
        · simp only [eraseA, if_neg hk, lookupA, if_neg h2]
          exact ih key k2 hne

theorem lookupA_eraseA_self {α β : Type} [DecidableEq α] :
    ∀ (l : List (α × β)) (key : α), (l.map Prod.fst).Nodup →
      lookupA (eraseA l key) key = none := by
  intro l
  induction l with
  | nil => intro key _; rfl
  | cons q t ih =>
      intro key hnd
      obtain ⟨qk, qv⟩ := q
      simp only [List.map_cons, List.nodup_cons] at hnd
      by_cases hk : qk = key
      · subst hk
        simp only [eraseA, if_pos rfl]
        apply lookupA_none_of_keys
        intro p hp hpk
        exact hnd.1 (hpk ▸ List.mem_map_of_mem Prod.fst hp)
      · simp [eraseA, lookupA, hk]
        exact ih key hnd.2

/-! ## Claim theorems: constructor timing and validation -/

/-- C9: the constructor computes the effective delay and duration by
JavaScript truthiness fallback (declared || presetDefault || 0): a declared
value of exactly 0 does not override a nonzero preset default; a nonzero
declared value always takes precedence; and the result is 0 when both the
declared value and the preset default are absent or zero. -/
theorem timing_truthiness_fallback :
    (∀ p : Int, p ≠ 0 → effectiveMs (some 0) (some p) = p)
    ∧ (∀ (d : Int) (p : Option Int), d ≠ 0 → effectiveMs (some d) p = d)
    ∧ effectiveMs none none = 0
    ∧ effectiveMs (some 0) none = 0
    ∧ effectiveMs none (some 0) = 0
    ∧ effectiveMs (some 0) (some 0) = 0 := by
  refine ⟨?_, ?_, by decide, by decide, by decide, by decide⟩
  · intro p hp
    simp [effectiveMs, truthyNum, hp]
  · intro d p hd
    simp [effectiveMs, truthyNum, hd]

/-- C9 witness: a declared 0 delay yields the preset default 300; a declared
200 overrides the preset default 300. -/
theorem timing_truthiness_fallback_witness :
    effectiveMs (some 0) (some 300) = 300 ∧ effectiveMs (some 200) (some 300) = 200 :=
  ⟨timing_truthiness_fallback.1 300 (by decide),
   timing_truthiness_fallback.2.1 200 (some 300) (by decide)⟩

/-- C8: at AnimationRunner construction the effective delay is rejected with
the user-facing negative-delay diagnostic exactly when it is negative; zero
or positive effective delays are accepted with no diagnostic; and no other
user-facing delay diagnostic can be produced by construction. -/
theorem negative_delay_rejected :
    (∀ declared presetDefault : Option Int,
        effectiveMs declared presetDefault < 0 →
        constructorUserDiagnostics (effectiveMs declared presetDefault)
          = [NEGATIVE_DELAY_MESSAGE])
    ∧ (∀ declared presetDefault : Option Int,
        0 ≤ effectiveMs declared presetDefault →
        constructorUserDiagnostics (effectiveMs declared presetDefault) = [])
    ∧ (∀ d : Int, constructorUserDiagnostics d = []
        ∨ constructorUserDiagnostics d = [NEGATIVE_DELAY_MESSAGE]) := by
  refine ⟨?_, ?_, ?_⟩
  · intro declared presetDefault h
    simp [constructorUserDiagnostics, not_le.mpr h]
  · intro declared presetDefault h
    simp [constructorUserDiagnostics, h]
  · intro d
    by_cases h : 0 ≤ d
    · exact Or.inl (by simp [constructorUserDiagnostics, h])
    · exact Or.inr (by simp [constructorUserDiagnostics, h])

/-- C8 witness: a declared -5 ms delay produces the diagnostic; a declared
500 ms delay produces none. -/
theorem negative_delay_rejected_witness :
    constructorUserDiagnostics (effectiveMs (some (-5)) none) = [NEGATIVE_DELAY_MESSAGE]
    ∧ constructorUserDiagnostics (effectiveMs (some 500) none) = [] :=
  ⟨negative_delay_rejected.1 (some (-5)) none (by decide),
   negative_delay_rejected.2.1 (some 500) none (by decide)⟩

/-! ## Claim theorems: Manager preset resolution (C5) -/

/-- C5 counterexample: with the one-entry preset table and the elements
A("fade-in"), B("zoooom"), C("fade-in"), runner creation aborts at B with the
preset diagnostic and sibling C is never resolved (only the runner for A was
constructed before the abort), so the claim that every sibling resolution
still completes unaffected is false at this input. -/
theorem unknown_preset_counterexample :
    getOrCreateRunners [("fade-in", ⟨0⟩)]
        [⟨"fade-in", "AMP-IMG"⟩, ⟨"zoooom", "AMP-IMG"⟩, ⟨"fade-in", "P"⟩]
      = Except.error (invalidPresetMessage ⟨"zoooom", "AMP-IMG"⟩)
    ∧ runnersCreatedBeforeFailure [("fade-in", ⟨0⟩)]
        [⟨"fade-in", "AMP-IMG"⟩, ⟨"zoooom", "AMP-IMG"⟩, ⟨"fade-in", "P"⟩]
      = [(⟨"fade-in", "AMP-IMG"⟩, ⟨0⟩)] :=
  ⟨rfl, rfl⟩

/-- C5 amended: an element whose preset name is not in the table fails with a
user-facing diagnostic naming the animate-in attribute and the invalid value;
because the diagnostic is thrown out of the synchronous map over elements,
the runner list is never stored: runner constructions execute exactly for the
siblings before the failing element, and siblings after it are never
resolved. -/
theorem unknown_preset_diagnostic_aborts_creation :
    ∀ (presets : List (String × StoryAnimationPresetDef))
      (pre post : List ManagedElement) (bad : ManagedElement),
      lookupA presets bad.animateIn = none →
      (∀ el ∈ pre, (lookupA presets el.animateIn).isSome) →
      getPreset presets bad = Except.error (invalidPresetMessage bad)
      ∧ getOrCreateRunners presets (pre ++ bad :: post)
          = Except.error (invalidPresetMessage bad)
      ∧ (runnersCreatedBeforeFailure presets (pre ++ bad :: post)).map Prod.fst
          = pre := by
  intro presets pre post bad hbad hpre
  refine ⟨by simp [getPreset, hbad], ?_⟩
  induction pre with
  | nil =>
      simp [getOrCreateRunners, runnersCreatedBeforeFailure, createRunnerDef,
        getPreset, hbad, Except.map]
  | cons el rest ih =>
      have hel : (lookupA presets el.animateIn).isSome :=
        hpre el (List.mem_cons_self _ _)
      obtain ⟨p, hp⟩ := Option.isSome_iff_exists.mp hel
      have ih2 := ih fun e he => hpre e (List.mem_cons_of_mem _ he)
      simp only [List.cons_append, getOrCreateRunners, runnersCreatedBeforeFailure,
        createRunnerDef, getPreset, hp, Except.map, List.append_eq, ih2.1, ih2.2,
        List.map_cons]
      exact ⟨trivial, trivial⟩

/-- C5 witness: instantiation of the amended theorem at the concrete table
and elements of the counterexample. -/
theorem unknown_preset_diagnostic_aborts_creation_witness :
    getPreset [("fade-in", ⟨0⟩)] ⟨"zoooom", "AMP-IMG"⟩
      = Except.error (invalidPresetMessage ⟨"zoooom", "AMP-IMG"⟩)
    ∧ getOrCreateRunners [("fade-in", ⟨0⟩)]
        ([⟨"fade-in", "AMP-IMG"⟩] ++ ⟨"zoooom", "AMP-IMG"⟩ :: [⟨"fade-in", "P"⟩])
      = Except.error (invalidPresetMessage ⟨"zoooom", "AMP-IMG"⟩)
    ∧ (runnersCreatedBeforeFailure [("fade-in", ⟨0⟩)]
        ([⟨"fade-in", "AMP-IMG"⟩] ++ ⟨"zoooom", "AMP-IMG"⟩ :: [⟨"fade-in", "P"⟩])).map Prod.fst
      = [⟨"fade-in", "AMP-IMG"⟩] :=
  unknown_preset_diagnostic_aborts_creation [("fade-in", ⟨0⟩)]
    [⟨"fade-in", "AMP-IMG"⟩] [⟨"fade-in", "P"⟩] ⟨"zoooom", "AMP-IMG"⟩
    (by decide) (by decide)

/-! ## Claim theorems: runner step properties (C7, C10, C6) -/

/-- C7: AnimationRunner.applyFirstFrame is idempotent: after one call
firstFrameApplied is true, a second call without an intervening first-frame
reset is the identity (so it causes no further style writes), and a call on a
fresh state performs the style mutation exactly once. -/
theorem applyFirstFrame_idempotent :
    (∀ (cfg : RConfig) (s : RState),
        (step cfg s Event.apiApplyFirstFrame).firstFrameApplied = true)
    ∧ (∀ (cfg : RConfig) (s : RState),
        step cfg (step cfg s Event.apiApplyFirstFrame) Event.apiApplyFirstFrame
          = step cfg s Event.apiApplyFirstFrame)
    ∧ (∀ (cfg : RConfig) (s : RState), s.firstFrameApplied = false →
        (step cfg s Event.apiApplyFirstFrame).effects
          = s.effects ++ [Effect.styleWrite]) := by
  refine ⟨?_, ?_, ?_⟩
  · intro cfg s
    by_cases h : s.firstFrameApplied <;> simp [step, applyFirstFrameF, h]
  · intro cfg s
    by_cases h : s.firstFrameApplied <;> simp [step, applyFirstFrameF, h]
  · intro cfg s h
    simp [step, applyFirstFrameF, h]

/-- C7 witness: instantiation at the initial state. -/
theorem applyFirstFrame_idempotent_witness :
    (step ⟨none, none, 0⟩ initState Event.apiApplyFirstFrame).firstFrameApplied = true
    ∧ step ⟨none, none, 0⟩ (step ⟨none, none, 0⟩ initState Event.apiApplyFirstFrame)
        Event.apiApplyFirstFrame
      = step ⟨none, none, 0⟩ initState Event.apiApplyFirstFrame
    ∧ (step ⟨none, none, 0⟩ initState Event.apiApplyFirstFrame).effects
      = initState.effects ++ [Effect.styleWrite] :=
  ⟨applyFirstFrame_idempotent.1 ⟨none, none, 0⟩ initState,
   applyFirstFrame_idempotent.2.1 ⟨none, none, 0⟩ initState,
   applyFirstFrame_idempotent.2.2 ⟨none, none, 0⟩ initState (by decide)⟩

/-- C10: cancel clears the scheduled-activity slot (and wait) before testing
hasStarted, so the host cancel is invoked exactly when the host runner has
resolved and reports RUNNING; otherwise (in particular for a merely scheduled
START with an unresolved runner) there is no host call, runnerReset is
untouched, and no developer assert fires. -/
theorem cancel_slot_cleared_before_hasStarted :
    ∀ (cfg : RConfig) (s : RState),
      (step cfg s Event.apiCancel).scheduledActivity = none
      ∧ (step cfg s Event.apiCancel).scheduledWait = none
      ∧ (s.runnerResolved = true ∧ s.playState = WebAnimationPlayState.running →
          (step cfg s Event.apiCancel).effects = s.effects ++ [Effect.hostCancel]
          ∧ (step cfg s Event.apiCancel).runnerReset = true)
      ∧ (¬(s.runnerResolved = true ∧ s.playState = WebAnimationPlayState.running) →
          (step cfg s Event.apiCancel).effects = s.effects
          ∧ (step cfg s Event.apiCancel).runnerReset = s.runnerReset
          ∧ (step cfg s Event.apiCancel).devError = s.devError) := by
  intro cfg s
  by_cases h : s.runnerResolved = true ∧ s.playState = WebAnimationPlayState.running
  · obtain ⟨h1, h2⟩ := h
    refine ⟨?_, ?_, fun _ => ⟨?_, ?_⟩, fun hc => absurd ⟨h1, h2⟩ hc⟩ <;>
      simp [step, apiCancelF, hasStartedP, h1, h2]
  · refine ⟨?_, ?_, fun hc => absurd hc h, fun _ => ⟨?_, ?_, ?_⟩⟩ <;>
      simp [step, apiCancelF, hasStartedP, h]

/-- C10 witness: instantiation at a state with a START scheduled and the
runner unresolved (one apiStart from the initial state). -/
theorem cancel_slot_cleared_before_hasStarted_witness :
    (run ⟨none, some "a", 0⟩ [Event.apiStart]).scheduledActivity
        = some PlaybackActivity.start
    ∧ (run ⟨none, some "a", 0⟩ [Event.apiStart]).runnerResolved = false
    ∧ (step ⟨none, some "a", 0⟩ (run ⟨none, some "a", 0⟩ [Event.apiStart])
        Event.apiCancel).scheduledActivity = none
    ∧ (step ⟨none, some "a", 0⟩ (run ⟨none, some "a", 0⟩ [Event.apiStart])
        Event.apiCancel).effects
      = (run ⟨none, some "a", 0⟩ [Event.apiStart]).effects
    ∧ (step ⟨none, some "a", 0⟩ (run ⟨none, some "a", 0⟩ [Event.apiStart])
        Event.apiCancel).runnerReset
      = (run ⟨none, some "a", 0⟩ [Event.apiStart]).runnerReset :=
  ⟨by decide, by decide,
   (cancel_slot_cleared_before_hasStarted ⟨none, some "a", 0⟩ _).1,
   ((cancel_slot_cleared_before_hasStarted ⟨none, some "a", 0⟩ _).2.2.2 (by decide)).1,
   ((cancel_slot_cleared_before_hasStarted ⟨none, some "a", 0⟩ _).2.2.2 (by decide)).2.1⟩

/-- C6 counterexample: finish() called on a runner whose target has id "a"
but whose first frame was never applied (and before any start) performs no
bus notification at all, so the claim that such a finish still notifies the
sequence with the element id is false at this input (it also does not throw). -/
theorem finish_without_first_frame_counterexample :
    (run ⟨some "a", none, 0⟩ [Event.apiFinish]).devError = false
    ∧ Effect.notifyBus "a" ∉ (run ⟨some "a", none, 0⟩ [Event.apiFinish]).effects
    ∧ (run ⟨some "a", none, 0⟩ [Event.apiFinish]).notifyLog = [] := by
  decide

/-- C6 amended: provided the first frame has been applied, calling finish()
before any start does not throw and notifies the bus with the target element
id before the first-frame styles are reset, resolving any in-flight wait on
that id, even though the host runner never actually started. -/
theorem finish_notifies_before_reset :
    ∀ (cfg : RConfig) (i : String) (s : RState),
      cfg.targetId = some i →
      s.firstFrameApplied = true →
      (step cfg s Event.apiFinish).effects
          = s.effects ++ [Effect.notifyBus i, Effect.resetStyles]
      ∧ (step cfg s Event.apiFinish).notifyLog = s.notifyLog ++ [i]
      ∧ (step cfg s Event.apiFinish).devError = s.devError
      ∧ (∀ p, lookupA s.seq.subscriptionPromises i = some p →
            lookupA s.seq.subscriptionResolvers i = some p →
            p ∈ (step cfg s Event.apiFinish).store.resolved) := by
  intro cfg i s hcfg hff
  refine ⟨?_, ?_, ?_, ?_⟩
  · simp [step, apiFinishF, notifyFinishR, seqNotify, resetFirstFrame, playbackF,
      hcfg, hff]
  · simp [step, apiFinishF, notifyFinishR, seqNotify, resetFirstFrame, playbackF,
      hcfg, hff]
  · simp [step, apiFinishF, notifyFinishR, seqNotify, resetFirstFrame, playbackF,
      hcfg, hff]
  · intro p hp hr
    simp [step, apiFinishF, notifyFinishR, seqNotify, resetFirstFrame, playbackF,
      AnimationSequence.notifyFinish, hcfg, hff, hp, hr]

/-- C6 witness: instantiation of the amended theorem after applyFirstFrame,
with an in-flight wait on "a" created by a sibling. -/
theorem finish_notifies_before_reset_witness :
    (step ⟨some "a", none, 0⟩ (run ⟨some "a", none, 0⟩ [Event.apiApplyFirstFrame])
        Event.apiFinish).effects
      = (run ⟨some "a", none, 0⟩ [Event.apiApplyFirstFrame]).effects
          ++ [Effect.notifyBus "a", Effect.resetStyles]
    ∧ (step ⟨some "a", none, 0⟩ (run ⟨some "a", none, 0⟩ [Event.apiApplyFirstFrame])
        Event.apiFinish).devError
      = (run ⟨some "a", none, 0⟩ [Event.apiApplyFirstFrame]).devError :=
  ⟨(finish_notifies_before_reset ⟨some "a", none, 0⟩ "a" _ rfl (by decide)).1,
   (finish_notifies_before_reset ⟨some "a", none, 0⟩ "a" _ rfl (by decide)).2.2.1⟩

/-! ## Sequence bus lemmas and the rendezvous theorem (C3) -/

theorem lookupA_isSome_of_mem {α β : Type} [DecidableEq α] :
    ∀ (l : List (α × β)) (k : α) (v : β), (k, v) ∈ l → (lookupA l k).isSome := by
  intro l
  induction l with
  | nil => intro k v h; cases h
  | cons q t ih =>
      intro k v h
      obtain ⟨qk, qv⟩ := q
      by_cases hk : qk = k
      · simp [lookupA, hk]
      · rcases List.mem_cons.mp h with h2 | h2
        · cases h2; exact absurd rfl hk
        · simp only [lookupA, if_neg hk]
          exact ih k v h2

theorem setA_absent {α β : Type} [DecidableEq α] :
    ∀ (l : List (α × β)) (key : α) (v : β), lookupA l key = none →
      setA l key v = l ++ [(key, v)] := by
  intro l
  induction l with
  | nil => intro key v _; rfl
  | cons q t ih =>
      intro key v h
      obtain ⟨qk, qv⟩ := q
      by_cases hk : qk = key
      · simp [lookupA, hk] at h
      · simp only [lookupA, if_neg hk] at h
        simp [setA, hk, ih key v h]

theorem keys_setA_nodup {α β : Type} [DecidableEq α]
    (l : List (α × β)) (key : α) (v : β)
    (hnd : (l.map Prod.fst).Nodup) (habs : lookupA l key = none) :
    ((setA l key v).map Prod.fst).Nodup := by
  rw [setA_absent l key v habs]
  rw [List.map_append]
  rw [List.nodup_append]
  refine ⟨hnd, List.nodup_singleton _, ?_⟩
  intro x hx hy
  simp only [List.map_cons, List.map_nil, List.mem_singleton] at hy
  obtain ⟨p, hp, hpk⟩ := List.mem_map.mp hx
  have hsome := lookupA_isSome_of_mem l p.1 p.2 (by simpa using hp)
  rw [hpk, hy, habs] at hsome
  cases hsome

theorem waitFor_eq_of_found (s : AnimationSequence) (st : PromiseStore)
    (i : String) (p : Nat) (h : lookupA s.subscriptionPromises i = some p) :
    AnimationSequence.waitFor s st i = (s, st, p) := by
  unfold AnimationSequence.waitFor
  rw [h]

theorem waitFor_eq_of_absent (s : AnimationSequence) (st : PromiseStore)
    (i : String) (h : lookupA s.subscriptionPromises i = none) :
    AnimationSequence.waitFor s st i =
      (⟨setA s.subscriptionPromises i st.nextId, setA s.subscriptionResolvers i st.nextId⟩,
       { st with nextId := st.nextId + 1 }, st.nextId) := by
  unfold AnimationSequence.waitFor
  rw [h]

theorem notifyFinish_eq_of_absent (s : AnimationSequence) (st : PromiseStore)
    (i : String) (h : lookupA s.subscriptionPromises i = none) :
    AnimationSequence.notifyFinish s st i = (s, st) := by
  unfold AnimationSequence.notifyFinish
  rw [h]
  rfl

theorem notifyFinish_eq_of_found (s : AnimationSequence) (st : PromiseStore)
    (i : String) (p q : Nat)
    (hp : lookupA s.subscriptionPromises i = some p)
    (hq : lookupA s.subscriptionResolvers i = some q) :
    AnimationSequence.notifyFinish s st i =
      (⟨eraseA s.subscriptionPromises i, s.subscriptionResolvers⟩,
       { st with resolved := st.resolved ++ [q] }) := by
  unfold AnimationSequence.notifyFinish
  rw [hp, hq]
  rfl

theorem waitFor_preserves_resolved (s : AnimationSequence) (st : PromiseStore)
    (i : String) : (waitForStore s st i).resolved = st.resolved := by
  unfold waitForStore AnimationSequence.waitFor
  rcases h : lookupA s.subscriptionPromises i with _ | p <;> simp

/-- C3: waitFor returns a future that is unresolved until a subsequent
notifyFinish for the same id resolves it (a notify for a different id, or
any waitFor, never resolves it); a repeated waitFor before the notify
returns the same in-flight wait without changing state; the in-flight wait
is deleted when notifyFinish fires, so a waitFor after the notify creates a
fresh, distinct, unresolved wait; and notifyFinish with no in-flight wait
for the id leaves the bus state unchanged. -/
theorem waitFor_notifyFinish_rendezvous
    (s : AnimationSequence) (st : PromiseStore) (i : String) (hwf : SeqWF s st) :
    waitForProm s st i ∉ (waitForStore s st i).resolved
    ∧ AnimationSequence.waitFor (waitForSeq s st i) (waitForStore s st i) i
        = (waitForSeq s st i, waitForStore s st i, waitForProm s st i)
    ∧ waitForProm s st i
        ∈ (notifyStore (waitForSeq s st i) (waitForStore s st i) i).resolved
    ∧ lookupA (notifySeq (waitForSeq s st i) (waitForStore s st i) i).subscriptionPromises i
        = none
    ∧ (∀ j, j ≠ i → waitForProm s st i
        ∉ (notifyStore (waitForSeq s st i) (waitForStore s st i) j).resolved)
    ∧ (∀ (s2 : AnimationSequence) (st2 : PromiseStore) (j : String),
        (waitForStore s2 st2 j).resolved = st2.resolved)
    ∧ waitForProm (notifySeq (waitForSeq s st i) (waitForStore s st i) i)
        (notifyStore (waitForSeq s st i) (waitForStore s st i) i) i
        ≠ waitForProm s st i
    ∧ waitForProm (notifySeq (waitForSeq s st i) (waitForStore s st i) i)
        (notifyStore (waitForSeq s st i) (waitForStore s st i) i) i
        ∉ (waitForStore (notifySeq (waitForSeq s st i) (waitForStore s st i) i)
            (notifyStore (waitForSeq s st i) (waitForStore s st i) i) i).resolved
    ∧ (∀ j, lookupA s.subscriptionPromises j = none →
        AnimationSequence.notifyFinish s st j = (s, st)) := by
  obtain ⟨hkeys, hvals, hmem, hres⟩ := hwf
  rcases hlook : lookupA s.subscriptionPromises i with _ | p
  case none =>
    have hW := waitFor_eq_of_absent s st i hlook
    have hseq1 : waitForSeq s st i
        = ⟨setA s.subscriptionPromises i st.nextId, setA s.subscriptionResolvers i st.nextId⟩ := by
      unfold waitForSeq; rw [hW]
    have hst1 : waitForStore s st i = { st with nextId := st.nextId + 1 } := by
      unfold waitForStore; rw [hW]
    have hprom : waitForProm s st i = st.nextId := by
      unfold waitForProm; rw [hW]
    have hlook1 : lookupA (waitForSeq s st i).subscriptionPromises i = some st.nextId := by
      rw [hseq1]; exact lookupA_setA_self _ _ _
    have hres1 : lookupA (waitForSeq s st i).subscriptionResolvers i = some st.nextId := by
      rw [hseq1]; exact lookupA_setA_self _ _ _
    have hN := notifyFinish_eq_of_found (waitForSeq s st i) (waitForStore s st i)
      i st.nextId st.nextId hlook1 hres1
    have hkeys1 : ((waitForSeq s st i).subscriptionPromises.map Prod.fst).Nodup := by
      rw [hseq1]; exact keys_setA_nodup _ _ _ hkeys hlook
    refine ⟨?_, ?_, ?_, ?_, ?_, ?_, ?_, ?_, ?_⟩
    · rw [hprom, hst1]
      intro hc
      exact absurd (hres _ hc) (by simp)
    · rw [waitFor_eq_of_found _ _ _ _ hlook1, hprom]
    · unfold notifyStore
      rw [hN, hprom, hst1]
      simp
    · unfold notifySeq
      rw [hN]
      simpa [hseq1] using lookupA_eraseA_self _ i hkeys1
    · intro j hj
      unfold notifyStore
      have hlookj : lookupA (waitForSeq s st i).subscriptionPromises j
          = lookupA s.subscriptionPromises j := by
        rw [hseq1]
        exact lookupA_setA_ne _ _ _ _ hj
      rcases hlj : lookupA s.subscriptionPromises j with _ | q
      · rw [notifyFinish_eq_of_absent _ _ _ (hlookj.trans hlj), hst1, hprom]
        intro hc
        exact absurd (hres _ hc) (by simp)
      · have hmemj := hmem _ (lookupA_mem _ _ _ hlj)
        have hresj : lookupA (waitForSeq s st i).subscriptionResolvers j = some q := by
          rw [hseq1]
          rw [lookupA_setA_ne _ _ _ _ hj]
          exact hmemj.1
        rw [notifyFinish_eq_of_found _ _ _ _ _ (hlookj.trans hlj) hresj, hprom, hst1]
        simp only [List.mem_append, List.mem_singleton]
        rintro (hc | hc)
        · exact absurd (hres _ hc) (by simp)
        · exact absurd hc.symm (Nat.ne_of_lt hmemj.2.1)
    · intro s2 st2 j
      exact waitFor_preserves_resolved s2 st2 j
    · have hNseq : notifySeq (waitForSeq s st i) (waitForStore s st i) i
          = ⟨eraseA (waitForSeq s st i).subscriptionPromises i,
             (waitForSeq s st i).subscriptionResolvers⟩ := by
        unfold notifySeq; rw [hN]
      have hNst : notifyStore (waitForSeq s st i) (waitForStore s st i) i
          = { waitForStore s st i with
              resolved := (waitForStore s st i).resolved ++ [st.nextId] } := by
        unfold notifyStore; rw [hN]
      have habs2 : lookupA (eraseA (waitForSeq s st i).subscriptionPromises i) i = none :=
        lookupA_eraseA_self _ i hkeys1
      rw [hNseq, hNst, hprom]
      unfold waitForProm
      rw [waitFor_eq_of_absent _ _ _ habs2]
      show ({ waitForStore s st i with
        resolved := (waitForStore s st i).resolved ++ [st.nextId] }).nextId ≠ st.nextId
      rw [hst1]
      simp
    · have hNseq : notifySeq (waitForSeq s st i) (waitForStore s st i) i
          = ⟨eraseA (waitForSeq s st i).subscriptionPromises i,
             (waitForSeq s st i).subscriptionResolvers⟩ := by
        unfold notifySeq; rw [hN]
      have hNst : notifyStore (waitForSeq s st i) (waitForStore s st i) i
          = { waitForStore s st i with
              resolved := (waitForStore s st i).resolved ++ [st.nextId] } := by
        unfold notifyStore; rw [hN]
      have habs2 : lookupA (eraseA (waitForSeq s st i).subscriptionPromises i) i = none :=
        lookupA_eraseA_self _ i hkeys1
      rw [hNseq, hNst]
      unfold waitForProm waitForStore
      rw [waitFor_eq_of_absent _ _ _ habs2]
      show ({ waitForStore s st i with
          resolved := (waitForStore s st i).resolved ++ [st.nextId] }).nextId
        ∉ (waitForStore s st i).resolved ++ [st.nextId]
      rw [hst1]
      show st.nextId + 1 ∉ st.resolved ++ [st.nextId]
      simp only [List.mem_append, List.mem_singleton]
      rintro (hc | hc)
      · exact absurd (hres _ hc) (by omega)
      · omega
    · intro j hj
      exact notifyFinish_eq_of_absent s st j hj
  case some =>
    have hW := waitFor_eq_of_found s st i p hlook
    have hseq1 : waitForSeq s st i = s := by unfold waitForSeq; rw [hW]
    have hst1 : waitForStore s st i = st := by unfold waitForStore; rw [hW]
    have hprom : waitForProm s st i = p := by unfold waitForProm; rw [hW]
    have hmemi := hmem _ (lookupA_mem _ _ _ hlook)
    have hN := notifyFinish_eq_of_found s st i p p hlook hmemi.1
    refine ⟨?_, ?_, ?_, ?_, ?_, ?_, ?_, ?_, ?_⟩
    · rw [hprom, hst1]
      exact hmemi.2.2
    · rw [hseq1, hst1, waitFor_eq_of_found _ _ _ _ hlook, hprom]
    · unfold notifyStore
      rw [hseq1, hst1, hN, hprom]
      simp
    · unfold notifySeq
      rw [hseq1, hst1, hN]
      exact lookupA_eraseA_self _ i hkeys
    · intro j hj
      unfold notifyStore
      rw [hseq1, hst1, hprom]
      rcases hlj : lookupA s.subscriptionPromises j with _ | q
      · rw [notifyFinish_eq_of_absent _ _ _ hlj]
        exact hmemi.2.2
      · have hmemj := hmem _ (lookupA_mem _ _ _ hlj)
        rw [notifyFinish_eq_of_found _ _ _ _ _ hlj hmemj.1]
        simp only [List.mem_append, List.mem_singleton]
        rintro (hc | hc)
        · exact hmemi.2.2 hc
        · have hne : p ≠ q := by
            intro he
            have := List.inj_on_of_nodup_map hvals
              (lookupA_mem _ _ _ hlook) (lookupA_mem _ _ _ hlj) (by simpa using he)
            have : i = j := congrArg Prod.fst this
            exact hj this.symm
          exact hne hc
    · intro s2 st2 j
      exact waitFor_preserves_resolved s2 st2 j
    · unfold notifySeq notifyStore
      rw [hseq1, hst1, hN]
      have habs2 : lookupA (eraseA s.subscriptionPromises i) i = none :=
        lookupA_eraseA_self _ i hkeys
      unfold waitForProm
      rw [waitFor_eq_of_absent _ _ _ habs2, hW]
      show st.nextId ≠ p
      exact Nat.ne_of_gt hmemi.2.1
    · unfold notifySeq notifyStore
      rw [hseq1, hst1, hN]
      have habs2 : lookupA (eraseA s.subscriptionPromises i) i = none :=
        lookupA_eraseA_self _ i hkeys
      unfold waitForProm waitForStore
      rw [waitFor_eq_of_absent _ _ _ habs2]
      show st.nextId ∉ st.resolved ++ [p]
      simp only [List.mem_append, List.mem_singleton]
      rintro (hc | hc)
      · exact absurd (hres _ hc) (by omega)
      · exact absurd hc (Nat.ne_of_gt hmemi.2.1)
    · intro j hj
      exact notifyFinish_eq_of_absent s st j hj

/-- C3 witness: instantiation at the empty bus and the id "a". -/
theorem waitFor_notifyFinish_rendezvous_witness :
    waitForProm ⟨[], []⟩ ⟨0, []⟩ "a" ∉ (waitForStore ⟨[], []⟩ ⟨0, []⟩ "a").resolved
    ∧ waitForProm ⟨[], []⟩ ⟨0, []⟩ "a"
        ∈ (notifyStore (waitForSeq ⟨[], []⟩ ⟨0, []⟩ "a")
            (waitForStore ⟨[], []⟩ ⟨0, []⟩ "a") "a").resolved
    ∧ AnimationSequence.notifyFinish ⟨[], []⟩ ⟨0, []⟩ "b" = (⟨[], []⟩, ⟨0, []⟩) := by
  have hwf : SeqWF ⟨[], []⟩ ⟨0, []⟩ := by
    unfold SeqWF
    refine ⟨List.nodup_nil, List.nodup_nil, ?_, ?_⟩
    · intro kp hkp; cases hkp
    · intro r hr; cases hr
  have h := waitFor_notifyFinish_rendezvous ⟨[], []⟩ ⟨0, []⟩ "a" hwf
  exact ⟨h.1, h.2.2.1, h.2.2.2.2.2.2.2.2 "b" rfl⟩

/-! ## List helpers for the machine invariant -/

theorem nodup_snoc {α : Type} {l : List α} {x : α} (h : l.Nodup) (hx : x ∉ l) :
    (l ++ [x]).Nodup := by
  rw [List.nodup_append]
  refine ⟨h, List.nodup_singleton x, ?_⟩
  intro a ha hb
  rw [List.mem_singleton] at hb
  subst hb
  exact hx ha

theorem mem_of_mem_eraseIdx {α : Type} {l : List α} {i : Nat} {c : α}
    (h : c ∈ l.eraseIdx i) : c ∈ l :=
  (List.eraseIdx_sublist l i).subset h

theorem map_get_eraseIdx_ne {α : Type} (f : α → Nat) :
    ∀ (l : List α) (i : Nat) (c : α), l.get? i = some c → (l.map f).Nodup →
      ∀ c2 ∈ l.eraseIdx i, f c2 ≠ f c := by
  intro l
  induction l with
  | nil => intro i c h; simp at h
  | cons a t ih =>
      intro i c h hnd c2 hc2
      simp only [List.map_cons, List.nodup_cons] at hnd
      cases i with
      | zero =>
          simp only [List.get?] at h
          injection h with h
          subst h
          simp only [List.eraseIdx] at hc2
          intro he
          exact hnd.1 (he ▸ List.mem_map_of_mem f hc2)
      | succ n =>
          simp only [List.get?] at h
          simp only [List.eraseIdx] at hc2
          rcases List.mem_cons.mp hc2 with hc | hc
          · subst hc
            intro he
            exact hnd.1 (he ▸ List.mem_map_of_mem f (List.get?_mem h))
          · exact ih n c h hnd.2 c2 hc

/-! ## Field lemmas for the runner step helpers -/

theorem resetFirstFrame_conts (s : RState) : (resetFirstFrame s).conts = s.conts := by
  unfold resetFirstFrame; split_ifs <;> rfl

theorem resetFirstFrame_execGens (s : RState) :
    (resetFirstFrame s).execGens = s.execGens := by
  unfold resetFirstFrame; split_ifs <;> rfl

theorem resetFirstFrame_nextGen (s : RState) :
    (resetFirstFrame s).nextGen = s.nextGen := by
  unfold resetFirstFrame; split_ifs <;> rfl

theorem resetFirstFrame_runnerResolved (s : RState) :
    (resetFirstFrame s).runnerResolved = s.runnerResolved := by
  unfold resetFirstFrame; split_ifs <;> rfl

theorem resetFirstFrame_scheduledActivity (s : RState) :
    (resetFirstFrame s).scheduledActivity = s.scheduledActivity := by
  unfold resetFirstFrame; split_ifs <;> rfl

theorem resetFirstFrame_scheduledGen (s : RState) :
    (resetFirstFrame s).scheduledGen = s.scheduledGen := by
  unfold resetFirstFrame; split_ifs <;> rfl

theorem notifyFinishR_conts (cfg : RConfig) (s : RState) :
    (notifyFinishR cfg s).conts = s.conts := by
  unfold notifyFinishR seqNotify; cases cfg.targetId <;> rfl

theorem notifyFinishR_execGens (cfg : RConfig) (s : RState) :
    (notifyFinishR cfg s).execGens = s.execGens := by
  unfold notifyFinishR seqNotify; cases cfg.targetId <;> rfl

theorem notifyFinishR_nextGen (cfg : RConfig) (s : RState) :
    (notifyFinishR cfg s).nextGen = s.nextGen := by
  unfold notifyFinishR seqNotify; cases cfg.targetId <;> rfl

theorem notifyFinishR_runnerResolved (cfg : RConfig) (s : RState) :
    (notifyFinishR cfg s).runnerResolved = s.runnerResolved := by
  unfold notifyFinishR seqNotify; cases cfg.targetId <;> rfl

theorem notifyFinishR_scheduledActivity (cfg : RConfig) (s : RState) :
    (notifyFinishR cfg s).scheduledActivity = s.scheduledActivity := by
  unfold notifyFinishR seqNotify; cases cfg.targetId <;> rfl

theorem notifyFinishR_scheduledGen (cfg : RConfig) (s : RState) :
    (notifyFinishR cfg s).scheduledGen = s.scheduledGen := by
  unfold notifyFinishR seqNotify; cases cfg.targetId <;> rfl

theorem startWhenReadyF_conts (s : RState) : (startWhenReadyF s).conts = s.conts := by
  unfold startWhenReadyF
  rw [resetFirstFrame_conts]

theorem startWhenReadyF_execGens (s : RState) :
    (startWhenReadyF s).execGens = s.execGens := by
  unfold startWhenReadyF
  rw [resetFirstFrame_execGens]

theorem startWhenReadyF_nextGen (s : RState) :
    (startWhenReadyF s).nextGen = s.nextGen := by
  unfold startWhenReadyF
  rw [resetFirstFrame_nextGen]

theorem startWhenReadyF_runnerResolved (s : RState) :
    (startWhenReadyF s).runnerResolved = s.runnerResolved := by
  unfold startWhenReadyF
  rw [resetFirstFrame_runnerResolved]

theorem startWhenReadyF_scheduledActivity (s : RState) :
    (startWhenReadyF s).scheduledActivity = s.scheduledActivity := by
  unfold startWhenReadyF
  rw [resetFirstFrame_scheduledActivity]

theorem startWhenReadyF_scheduledGen (s : RState) :
    (startWhenReadyF s).scheduledGen = s.scheduledGen := by
  unfold startWhenReadyF
  rw [resetFirstFrame_scheduledGen]

theorem finishWhenReadyF_conts (cfg : RConfig) (s : RState) :
    (finishWhenReadyF cfg s).conts = s.conts := by
  unfold finishWhenReadyF
  split_ifs
  · rw [notifyFinishR_conts]
  · rfl

theorem finishWhenReadyF_execGens (cfg : RConfig) (s : RState) :
    (finishWhenReadyF cfg s).execGens = s.execGens := by
  unfold finishWhenReadyF
  split_ifs
  · rw [notifyFinishR_execGens]
  · rfl

theorem finishWhenReadyF_nextGen (cfg : RConfig) (s : RState) :
    (finishWhenReadyF cfg s).nextGen = s.nextGen := by
  unfold finishWhenReadyF
  split_ifs
  · rw [notifyFinishR_nextGen]
  · rfl

theorem finishWhenReadyF_runnerResolved (cfg : RConfig) (s : RState) :
    (finishWhenReadyF cfg s).runnerResolved = s.runnerResolved := by
  unfold finishWhenReadyF
  split_ifs
  · rw [notifyFinishR_runnerResolved]
  · rfl

theorem finishWhenReadyF_scheduledActivity (cfg : RConfig) (s : RState) :
    (finishWhenReadyF cfg s).scheduledActivity = s.scheduledActivity := by
  unfold finishWhenReadyF
  split_ifs
  · rw [notifyFinishR_scheduledActivity]
  · rfl

theorem finishWhenReadyF_scheduledGen (cfg : RConfig) (s : RState) :
    (finishWhenReadyF cfg s).scheduledGen = s.scheduledGen := by
  unfold finishWhenReadyF
  split_ifs
  · rw [notifyFinishR_scheduledGen]
  · rfl

theorem execA_conts (cfg : RConfig) (a : PlaybackActivity) (g : Nat) (s : RState) :
    (execA cfg a g s).conts = s.conts := by
  cases a
  · unfold execA
    rw [startWhenReadyF_conts]
  · unfold execA
    rw [finishWhenReadyF_conts]

theorem execA_execGens (cfg : RConfig) (a : PlaybackActivity) (g : Nat) (s : RState) :
    (execA cfg a g s).execGens = s.execGens ++ [g] := by
  cases a
  · unfold execA
    rw [startWhenReadyF_execGens]
  · unfold execA
    rw [finishWhenReadyF_execGens]

theorem execA_nextGen (cfg : RConfig) (a : PlaybackActivity) (g : Nat) (s : RState) :
    (execA cfg a g s).nextGen = s.nextGen := by
  cases a
  · unfold execA
    rw [startWhenReadyF_nextGen]
  · unfold execA
    rw [finishWhenReadyF_nextGen]

theorem execA_runnerResolved (cfg : RConfig) (a : PlaybackActivity) (g : Nat) (s : RState) :
    (execA cfg a g s).runnerResolved = s.runnerResolved := by
  cases a
  · unfold execA
    rw [startWhenReadyF_runnerResolved]
  · unfold execA
    rw [finishWhenReadyF_runnerResolved]

theorem execA_scheduledActivity (cfg : RConfig) (a : PlaybackActivity) (g : Nat) (s : RState) :
    (execA cfg a g s).scheduledActivity = s.scheduledActivity := by
  cases a
  · unfold execA
    rw [startWhenReadyF_scheduledActivity]
  · unfold execA
    rw [finishWhenReadyF_scheduledActivity]

theorem execA_scheduledGen (cfg : RConfig) (a : PlaybackActivity) (g : Nat) (s : RState) :
    (execA cfg a g s).scheduledGen = s.scheduledGen := by
  cases a
  · unfold execA
    rw [startWhenReadyF_scheduledGen]
  · unfold execA
    rw [finishWhenReadyF_scheduledGen]

/-! ## Machine invariant preservation -/

theorem noHostSRF_snoc {l : List Effect} {x : Effect} (h : noHostSRF l)
    (k1 : x ≠ Effect.hostStart) (k2 : x ≠ Effect.hostResume)
    (k3 : x ≠ Effect.hostFinish) : noHostSRF (l ++ [x]) := by
  obtain ⟨ha, hb, hc⟩ := h
  refine ⟨?_, ?_, ?_⟩ <;>
    · rw [List.mem_append, List.mem_singleton]
      rintro (hm | hm)
      · first
        | exact ha hm
        | exact hb hm
        | exact hc hm
      · first
        | exact k1 hm.symm
        | exact k2 hm.symm
        | exact k3 hm.symm

theorem machineInv_notifyFinishR (cfg : RConfig) (s : RState) (h : MachineInv s) :
    MachineInv (notifyFinishR cfg s) := by
  obtain ⟨h1, h2, h3, h4, h5, h6⟩ := h
  unfold MachineInv
  cases htid : cfg.targetId with
  | none =>
      unfold notifyFinishR
      rw [htid]
      exact ⟨h1, h2, h3, h4, h5, h6⟩
  | some i =>
      unfold notifyFinishR seqNotify
      rw [htid]
      refine ⟨h1, h2, h3, h4, ?_, h6⟩
      intro hr
      obtain ⟨hc, hg, hsrf, hps⟩ := h5 hr
      exact ⟨hc, hg, noHostSRF_snoc hsrf (by simp) (by simp) (by simp), hps⟩

theorem machineInv_resetFirstFrame (s : RState) (h : MachineInv s) :
    MachineInv (resetFirstFrame s) := by
  obtain ⟨h1, h2, h3, h4, h5, h6⟩ := h
  unfold MachineInv resetFirstFrame
  split_ifs
  · refine ⟨h1, h2, h3, h4, ?_, h6⟩
    intro hr
    obtain ⟨hc, hg, hsrf, hps⟩ := h5 hr
    exact ⟨hc, hg, noHostSRF_snoc hsrf (by decide) (by decide) (by decide), hps⟩
  · exact ⟨h1, h2, h3, h4, h5, h6⟩

theorem machineInv_playbackF (a : PlaybackActivity) (w : Option Nat) (s : RState)
    (h : MachineInv s) : MachineInv (playbackF a w s) := by
  obtain ⟨h1, h2, h3, h4, h5, h6⟩ := h
  unfold MachineInv playbackF
  dsimp only
  by_cases hres : s.runnerResolved = true
  · simp only [if_pos hres]
    refine ⟨?_, ?_, h3, ?_, ?_, ?_⟩
    · have hfresh : s.nextGen ∉ s.conts.map Cont.gen := by
        intro hm
        obtain ⟨c, hcm, hgc⟩ := List.mem_map.mp hm
        exact absurd (hgc ▸ (h2 c hcm).1) (lt_irrefl _)
      simp only [List.map_append, List.map_cons, List.map_nil]
      exact nodup_snoc h1 hfresh
    · intro c hc
      rcases List.mem_append.mp hc with hc | hc
      · exact ⟨Nat.lt_succ_of_lt (h2 c hc).1, (h2 c hc).2⟩
      · rw [List.mem_singleton] at hc
        subst hc
        refine ⟨Nat.lt_succ_self _, ?_⟩
        intro hm
        exact absurd (h4 _ hm) (lt_irrefl _)
    · exact fun g hg => Nat.lt_succ_of_lt (h4 g hg)
    · intro hr
      rw [hres] at hr
      cases hr
    · intro _
      exact Nat.lt_succ_self _
  · simp only [if_neg hres]
    refine ⟨h1, ?_, h3, ?_, ?_, ?_⟩
    · exact fun c hc => ⟨Nat.lt_succ_of_lt (h2 c hc).1, (h2 c hc).2⟩
    · exact fun g hg => Nat.lt_succ_of_lt (h4 g hg)
    · intro hr
      exact h5 hr
    · intro _
      exact Nat.lt_succ_self _

theorem machineInv_step (cfg : RConfig) (s : RState) (e : Event)
    (h : MachineInv s) : MachineInv (step cfg s e) := by
  obtain ⟨h1, h2, h3, h4, h5, h6⟩ := h
  cases e with
  | apiApplyFirstFrame =>
      show MachineInv (applyFirstFrameF s)
      unfold applyFirstFrameF MachineInv
      split_ifs
      · exact ⟨h1, h2, h3, h4, h5, h6⟩
      · refine ⟨h1, h2, h3, h4, ?_, h6⟩
        intro hr
        obtain ⟨hc, hg, hsrf, hps⟩ := h5 hr
        exact ⟨hc, hg, noHostSRF_snoc hsrf (by decide) (by decide) (by decide), hps⟩
  | apiStart =>
      show MachineInv (apiStartF cfg s)
      unfold apiStartF
      split_ifs
      · exact ⟨h1, h2, h3, h4, h5, h6⟩
      · exact machineInv_playbackF _ _ _ ⟨h1, h2, h3, h4, h5, h6⟩
  | apiFinish =>
      show MachineInv (apiFinishF cfg s)
      unfold apiFinishF
      apply machineInv_playbackF
      apply machineInv_resetFirstFrame
      split_ifs
      · exact machineInv_notifyFinishR cfg s ⟨h1, h2, h3, h4, h5, h6⟩
      · exact ⟨h1, h2, h3, h4, h5, h6⟩
  | apiCancel =>
      show MachineInv (apiCancelF s)
      unfold apiCancelF MachineInv
      dsimp only
      split_ifs with hstart hres
      · refine ⟨h1, h2, h3, h4, ?_, ?_⟩
        · intro hr
          have hres2 : s.runnerResolved = true := hres
          rw [hres2] at hr
          cases hr
        · intro him
          simp at him
      · exfalso
        unfold hasStartedP at hstart
        rcases hstart with hst | ⟨hst, _⟩
        · exact Option.noConfusion hst
        · exact hres hst
      · refine ⟨h1, h2, h3, h4, ?_, ?_⟩
        · intro hr
          exact h5 hr
        · intro him
          simp at him
  | runnerResolve =>
      show MachineInv (runnerResolveF s)
      unfold runnerResolveF
      split_ifs with hres
      · exact ⟨h1, h2, h3, h4, h5, h6⟩
      · have hrf : s.runnerResolved = false := by
          revert hres
          cases s.runnerResolved <;> simp
        obtain ⟨hc, hg, hsrf, hps⟩ := h5 hrf
        cases hslot : s.scheduledActivity with
        | none =>
            refine ⟨h1, h2, h3, h4, ?_, ?_⟩
            · intro hr
              exact Bool.noConfusion hr
            · intro him
              exact Bool.noConfusion him
        | some a =>
            refine ⟨?_, ?_, h3, h4, ?_, ?_⟩
            · show ((s.conts ++ [(⟨s.scheduledGen, a, s.scheduledWait⟩ : Cont)]).map Cont.gen).Nodup
              rw [hc]
              simp
            · intro c hcm
              have hcm2 : c ∈ s.conts ++ [(⟨s.scheduledGen, a, s.scheduledWait⟩ : Cont)] := hcm
              rw [hc] at hcm2
              simp only [List.nil_append, List.mem_singleton] at hcm2
              subst hcm2
              show s.scheduledGen < s.nextGen ∧ s.scheduledGen ∉ s.execGens
              refine ⟨h6 (by rw [hslot]; rfl), ?_⟩
              rw [hg]
              intro hm
              cases hm
            · intro hr
              exact Bool.noConfusion hr
            · intro _
              exact h6 (by rw [hslot]; rfl)
  | notify i =>
      show MachineInv (seqNotify s i)
      unfold seqNotify MachineInv
      exact ⟨h1, h2, h3, h4, h5, h6⟩
  | advanceWait w =>
      show MachineInv (advanceWaitF cfg w s)
      unfold advanceWaitF
      split
      all_goals first
        | exact ⟨h1, h2, h3, h4, h5, h6⟩
        | (split_ifs <;> exact ⟨h1, h2, h3, h4, h5, h6⟩)
  | timerFire w =>
      show MachineInv (timerFireF w s)
      unfold timerFireF
      split
      all_goals exact ⟨h1, h2, h3, h4, h5, h6⟩
  | fireCont i =>
      show MachineInv (fireContF cfg i s)
      unfold fireContF
      split
      · exact ⟨h1, h2, h3, h4, h5, h6⟩
      · rename_i c hget
        have hcmem : c ∈ s.conts := List.get?_mem hget
        have hres : s.runnerResolved = true := by
          by_contra hr
          have hrf : s.runnerResolved = false := by
            revert hr
            cases s.runnerResolved <;> simp
          have hnil := (h5 hrf).1
          rw [hnil] at hget
          cases hget
        split_ifs with hwait hslot
        · refine ⟨?_, ?_, ?_, ?_, ?_, ?_⟩
          · rw [execA_conts]
            exact h1.sublist ((List.eraseIdx_sublist s.conts i).map Cont.gen)
          · rw [execA_conts, execA_execGens, execA_nextGen]
            intro c2 hc2
            refine ⟨(h2 c2 (mem_of_mem_eraseIdx hc2)).1, ?_⟩
            rw [List.mem_append, List.mem_singleton]
            rintro (hm | hm)
            · exact (h2 c2 (mem_of_mem_eraseIdx hc2)).2 hm
            · exact map_get_eraseIdx_ne Cont.gen s.conts i c hget h1 c2 hc2 hm
          · rw [execA_execGens]
            exact nodup_snoc h3 (h2 c hcmem).2
          · rw [execA_execGens, execA_nextGen]
            intro g hg
            rcases List.mem_append.mp hg with hm | hm
            · exact h4 g hm
            · rw [List.mem_singleton] at hm
              subst hm
              exact (h2 c hcmem).1
          · rw [execA_runnerResolved]
            intro hr
            rw [hres] at hr
            cases hr
          · rw [execA_scheduledActivity]
            intro him
            simp at him
        · refine ⟨?_, ?_, h3, h4, ?_, h6⟩
          · exact h1.sublist ((List.eraseIdx_sublist s.conts i).map Cont.gen)
          · intro c2 hc2
            exact h2 c2 (mem_of_mem_eraseIdx hc2)
          · intro hr
            rw [hres] at hr
            cases hr
        · exact ⟨h1, h2, h3, h4, h5, h6⟩
  | hostFinished =>
      show MachineInv (hostFinishedF cfg s)
      unfold hostFinishedF
      split_ifs with hcond
      · apply machineInv_notifyFinishR
        refine ⟨h1, h2, h3, h4, ?_, h6⟩
        intro hr
        rw [hcond.1] at hr
        cases hr
      · exact ⟨h1, h2, h3, h4, h5, h6⟩

theorem machineInv_initState : MachineInv initState := by
  unfold MachineInv initState noHostSRF
  refine ⟨List.nodup_nil, ?_, List.nodup_nil, ?_, ?_, ?_⟩
  · intro c hc
    cases hc
  · intro g hg
    cases hg
  · intro _
    exact ⟨rfl, rfl, ⟨by simp, by simp, by simp⟩, rfl⟩
  · intro him
    cases him

theorem machineInv_run (cfg : RConfig) (events : List Event) :
    MachineInv (run cfg events) := by
  suffices hgen : ∀ (l : List Event) (s : RState), MachineInv s →
      MachineInv (l.foldl (step cfg) s) by
    exact hgen events initState machineInv_initState
  intro l
  induction l with
  | nil => intro s h; exact h
  | cons e es ih =>
      intro s h
      exact ih _ (machineInv_step cfg s e h)

/-! ## Claim theorems: scheduled-activity supersession (C2) -/

theorem fireContF_not_resolved (cfg : RConfig) (s : RState) (i : Nat) (c : Cont)
    (hget : s.conts.get? i = some c) (hnr : ¬waitResolvedFor s c.wait) :
    fireContF cfg i s = s := by
  unfold fireContF
  rw [hget]
  exact if_neg hnr

theorem fireContF_superseded (cfg : RConfig) (s : RState) (i : Nat) (c : Cont)
    (hget : s.conts.get? i = some c) (hw : waitResolvedFor s c.wait)
    (hs : s.scheduledActivity ≠ some c.activity) :
    fireContF cfg i s = { s with conts := s.conts.eraseIdx i } := by
  unfold fireContF
  rw [hget]
  exact (if_pos hw).trans (if_neg hs)

/-- C2 counterexample: with the host runner resolved, two finish() calls
schedule FINISH twice (generations 0 then 1, per the scheduling log); before
either pending continuation fires the newer activity (generation 1) has been
scheduled and nothing has executed, yet when the continuations fire it is the
OLDER scheduling (generation 0) that executes and the newer one never does:
the supersession check compares only the activity kind held in the slot, so
for same-kind activities the older continuation passes it. This falsifies
the claim that a superseded older activity never executes in the same-kind
case. -/
theorem same_kind_supersession_counterexample :
    (run ⟨none, none, 0⟩
        [Event.runnerResolve, Event.apiFinish, Event.apiFinish]).schedLog = [0, 1]
    ∧ (run ⟨none, none, 0⟩
        [Event.runnerResolve, Event.apiFinish, Event.apiFinish]).execGens = []
    ∧ (run ⟨none, none, 0⟩
        [Event.runnerResolve, Event.apiFinish, Event.apiFinish,
         Event.fireCont 0, Event.fireCont 0]).execGens = [0] := by
  decide

/-- C2 amended: a scheduled playback activity is dispatched at most once per
scheduling (the dispatched-generation log never repeats); nothing is
dispatched, and no host call is made, before the host runner has resolved; a
continuation whose wait promise is unresolved does not fire; and a
continuation that fires while the slot holds a different activity KIND is
silently discarded without executing. When the newer and the older
scheduling are of the same kind, however, the slot comparison cannot
distinguish them: the first continuation of that kind to fire executes (the
counterexample shows the older one doing so) and later ones are skipped. -/
theorem playback_activity_supersession :
    (∀ (cfg : RConfig) (events : List Event), ((run cfg events).execGens).Nodup)
    ∧ (∀ (cfg : RConfig) (events : List Event),
        (run cfg events).runnerResolved = false →
          (run cfg events).conts = [] ∧ (run cfg events).execGens = []
          ∧ noHostSRF (run cfg events).effects)
    ∧ (∀ (cfg : RConfig) (s : RState) (i : Nat) (c : Cont),
        s.conts.get? i = some c → ¬waitResolvedFor s c.wait →
        step cfg s (Event.fireCont i) = s)
    ∧ (∀ (cfg : RConfig) (s : RState) (i : Nat) (c : Cont),
        s.conts.get? i = some c → waitResolvedFor s c.wait →
        s.scheduledActivity ≠ some c.activity →
        step cfg s (Event.fireCont i) = { s with conts := s.conts.eraseIdx i }) := by
  refine ⟨?_, ?_, ?_, ?_⟩
  · intro cfg events
    exact (machineInv_run cfg events).2.2.1
  · intro cfg events hr
    obtain ⟨hc, hg, hsrf, _⟩ := (machineInv_run cfg events).2.2.2.2.1 hr
    exact ⟨hc, hg, hsrf⟩
  · intro cfg s i c hget hnr
    exact fireContF_not_resolved cfg s i c hget hnr
  · intro cfg s i c hget hw hs
    exact fireContF_superseded cfg s i c hget hw hs

/-- C2 witness: instantiation of the amended theorem at concrete traces: a
pending START whose dependency wait is unresolved does not fire, and a
pending FINISH continuation whose slot has been overwritten by START is
discarded without executing. -/
theorem playback_activity_supersession_witness :
    ((run ⟨none, none, 0⟩ [Event.runnerResolve, Event.apiFinish]).execGens).Nodup
    ∧ step ⟨none, some "a", 0⟩
        (run ⟨none, some "a", 0⟩ [Event.runnerResolve, Event.apiStart])
        (Event.fireCont 0)
      = run ⟨none, some "a", 0⟩ [Event.runnerResolve, Event.apiStart]
    ∧ step ⟨none, none, 0⟩
        (run ⟨none, none, 0⟩ [Event.runnerResolve, Event.apiFinish, Event.apiStart])
        (Event.fireCont 0)
      = { run ⟨none, none, 0⟩ [Event.runnerResolve, Event.apiFinish, Event.apiStart] with
          conts := (run ⟨none, none, 0⟩
            [Event.runnerResolve, Event.apiFinish, Event.apiStart]).conts.eraseIdx 0 } := by
  refine ⟨playback_activity_supersession.1 ⟨none, none, 0⟩ _, ?_, ?_⟩
  · exact playback_activity_supersession.2.2.1 ⟨none, some "a", 0⟩ _ 0
      ⟨0, PlaybackActivity.start, some 0⟩ (by decide) (by decide)
  · exact playback_activity_supersession.2.2.2 ⟨none, none, 0⟩ _ 0
      ⟨0, PlaybackActivity.finish, none⟩ (by decide) (by decide) (by decide)

/-! ## Claim theorems: cancel before the host runner resolves (C4) -/

theorem playbackF_runnerResolved (a : PlaybackActivity) (w : Option Nat) (s : RState) :
    (playbackF a w s).runnerResolved = s.runnerResolved := rfl

theorem playbackF_devError (a : PlaybackActivity) (w : Option Nat) (s : RState) :
    (playbackF a w s).devError = s.devError := rfl

theorem resetFirstFrame_devError (s : RState) :
    (resetFirstFrame s).devError = s.devError := by
  unfold resetFirstFrame; split_ifs <;> rfl

theorem notifyFinishR_devError (cfg : RConfig) (s : RState) :
    (notifyFinishR cfg s).devError = s.devError := by
  unfold notifyFinishR seqNotify; cases cfg.targetId <;> rfl

theorem startWhenReadyF_devError (s : RState) :
    (startWhenReadyF s).devError = s.devError := by
  unfold startWhenReadyF
  rw [resetFirstFrame_devError]

theorem finishWhenReadyF_devError (cfg : RConfig) (s : RState) :
    (finishWhenReadyF cfg s).devError = s.devError := by
  unfold finishWhenReadyF
  split_ifs
  · rw [notifyFinishR_devError]
  · rfl

theorem execA_devError (cfg : RConfig) (a : PlaybackActivity) (g : Nat) (s : RState) :
    (execA cfg a g s).devError = s.devError := by
  cases a
  · unfold execA
    rw [startWhenReadyF_devError]
  · unfold execA
    rw [finishWhenReadyF_devError]

theorem step_runnerResolved_of_ne (cfg : RConfig) (s : RState) (e : Event)
    (he : e ≠ Event.runnerResolve) :
    (step cfg s e).runnerResolved = s.runnerResolved := by
  cases e with
  | apiApplyFirstFrame =>
      show (applyFirstFrameF s).runnerResolved = s.runnerResolved
      unfold applyFirstFrameF
      split_ifs <;> rfl
  | apiStart =>
      show (apiStartF cfg s).runnerResolved = s.runnerResolved
      unfold apiStartF
      split_ifs
      · rfl
      · rw [playbackF_runnerResolved]
  | apiFinish =>
      show (apiFinishF cfg s).runnerResolved = s.runnerResolved
      unfold apiFinishF
      rw [playbackF_runnerResolved, resetFirstFrame_runnerResolved]
      split_ifs
      · rw [notifyFinishR_runnerResolved]
      · rfl
  | apiCancel =>
      show (apiCancelF s).runnerResolved = s.runnerResolved
      unfold apiCancelF
      dsimp only
      split_ifs <;> rfl
  | runnerResolve => exact absurd rfl he
  | notify i => rfl
  | advanceWait w =>
      show (advanceWaitF cfg w s).runnerResolved = s.runnerResolved
      unfold advanceWaitF
      split
      all_goals first
        | rfl
        | (split_ifs <;> rfl)
  | timerFire w =>
      show (timerFireF w s).runnerResolved = s.runnerResolved
      unfold timerFireF
      split
      all_goals rfl
  | fireCont i =>
      show (fireContF cfg i s).runnerResolved = s.runnerResolved
      unfold fireContF
      split
      · rfl
      · split_ifs
        · rw [execA_runnerResolved]
        · rfl
        · rfl
  | hostFinished =>
      show (hostFinishedF cfg s).runnerResolved = s.runnerResolved
      unfold hostFinishedF
      split_ifs
      · rw [notifyFinishR_runnerResolved]
      · rfl

theorem step_devError (cfg : RConfig) (s : RState) (e : Event) :
    (step cfg s e).devError = s.devError := by
  cases e with
  | apiApplyFirstFrame =>
      show (applyFirstFrameF s).devError = s.devError
      unfold applyFirstFrameF
      split_ifs <;> rfl
  | apiStart =>
      show (apiStartF cfg s).devError = s.devError
      unfold apiStartF
      split_ifs
      · rfl
      · rw [playbackF_devError]
  | apiFinish =>
      show (apiFinishF cfg s).devError = s.devError
      unfold apiFinishF
      rw [playbackF_devError, resetFirstFrame_devError]
      split_ifs
      · rw [notifyFinishR_devError]
      · rfl
  | apiCancel =>
      show (apiCancelF s).devError = s.devError
      unfold apiCancelF
      dsimp only
      split_ifs with hstart hres
      · rfl
      · exfalso
        unfold hasStartedP at hstart
        rcases hstart with hst | ⟨hst, _⟩
        · exact Option.noConfusion hst
        · exact hres hst
      · rfl
  | runnerResolve =>
      show (runnerResolveF s).devError = s.devError
      unfold runnerResolveF
      split_ifs
      · rfl
      · cases s.scheduledActivity <;> rfl
  | notify i => rfl
  | advanceWait w =>
      show (advanceWaitF cfg w s).devError = s.devError
      unfold advanceWaitF
      split
      all_goals first
        | rfl
        | (split_ifs <;> rfl)
  | timerFire w =>
      show (timerFireF w s).devError = s.devError
      unfold timerFireF
      split
      all_goals rfl
  | fireCont i =>
      show (fireContF cfg i s).devError = s.devError
      unfold fireContF
      split
      · rfl
      · split_ifs
        · rw [execA_devError]
        · rfl
        · rfl
  | hostFinished =>
      show (hostFinishedF cfg s).devError = s.devError
      unfold hostFinishedF
      split_ifs
      · rw [notifyFinishR_devError]
      · rfl

theorem foldl_runnerResolved_of_not_mem (cfg : RConfig) :
    ∀ (l : List Event) (s : RState), Event.runnerResolve ∉ l →
      (l.foldl (step cfg) s).runnerResolved = s.runnerResolved := by
  intro l
  induction l with
  | nil => intro s _; rfl
  | cons e es ih =>
      intro s hmem
      rw [List.foldl_cons]
      rw [ih (step cfg s e) fun hm => hmem (List.mem_cons_of_mem _ hm)]
      exact step_runnerResolved_of_ne cfg s e fun he =>
        hmem (he ▸ List.mem_cons_self _ _)

theorem run_devError (cfg : RConfig) (events : List Event) :
    (run cfg events).devError = false := by
  suffices hgen : ∀ (l : List Event) (s : RState), s.devError = false →
      (l.foldl (step cfg) s).devError = false by
    exact hgen events initState rfl
  intro l
  induction l with
  | nil => intro s h; exact h
  | cons e es ih =>
      intro s h
      rw [List.foldl_cons]
      exact ih _ ((step_devError cfg s e).trans h)

theorem apiCancelF_not_started (s : RState)
    (hnr : ¬(s.runnerResolved = true ∧ s.playState = WebAnimationPlayState.running)) :
    apiCancelF s = { s with scheduledActivity := none, scheduledWait := none } := by
  have hns : ¬hasStartedP { s with scheduledActivity := none, scheduledWait := none } := by
    intro h
    rcases h with h | h
    · exact Option.noConfusion h
    · exact hnr h
  unfold apiCancelF
  exact if_neg hns

theorem quiescent_step (cfg : RConfig) (s : RState) (e : Event)
    (hs : e ≠ Event.apiStart) (hf : e ≠ Event.apiFinish)
    (h : CancelledQuiescent s) : CancelledQuiescent (step cfg s e) := by
  obtain ⟨hslot, hconts, hsrf, hps⟩ := h
  cases e with
  | apiApplyFirstFrame =>
      show CancelledQuiescent (applyFirstFrameF s)
      unfold applyFirstFrameF
      split_ifs
      · exact ⟨hslot, hconts, hsrf, hps⟩
      · exact ⟨hslot, hconts,
          noHostSRF_snoc hsrf (by decide) (by decide) (by decide), hps⟩
  | apiStart => exact absurd rfl hs
  | apiFinish => exact absurd rfl hf
  | apiCancel =>
      show CancelledQuiescent (apiCancelF s)
      rw [apiCancelF_not_started s fun hc => hps hc.2]
      exact ⟨rfl, hconts, hsrf, hps⟩
  | runnerResolve =>
      show CancelledQuiescent (runnerResolveF s)
      unfold runnerResolveF
      split_ifs
      · exact ⟨hslot, hconts, hsrf, hps⟩
      · rw [hslot]
        exact ⟨rfl, hconts, hsrf, hps⟩
  | notify i =>
      show CancelledQuiescent (seqNotify s i)
      exact ⟨hslot, hconts, hsrf, hps⟩
  | advanceWait w =>
      show CancelledQuiescent (advanceWaitF cfg w s)
      unfold advanceWaitF
      split
      all_goals first
        | exact ⟨hslot, hconts, hsrf, hps⟩
        | (split_ifs <;> exact ⟨hslot, hconts, hsrf, hps⟩)
  | timerFire w =>
      show CancelledQuiescent (timerFireF w s)
      unfold timerFireF
      split
      all_goals exact ⟨hslot, hconts, hsrf, hps⟩
  | fireCont i =>
      show CancelledQuiescent (fireContF cfg i s)
      unfold fireContF
      split
      · exact ⟨hslot, hconts, hsrf, hps⟩
      · rename_i c hget
        rw [hconts] at hget
        exact absurd hget (by simp)
  | hostFinished =>
      show CancelledQuiescent (hostFinishedF cfg s)
      unfold hostFinishedF
      split_ifs with hcond
      · exact absurd hcond.2 hps
      · exact ⟨hslot, hconts, hsrf, hps⟩

theorem quiescent_foldl (cfg : RConfig) :
    ∀ (l : List Event) (s : RState), Event.apiStart ∉ l → Event.apiFinish ∉ l →
      CancelledQuiescent s → CancelledQuiescent (l.foldl (step cfg) s) := by
  intro l
  induction l with
  | nil => intro s _ _ h; exact h
  | cons e es ih =>
      intro s hs hf h
      rw [List.foldl_cons]
      refine ih _ (fun hm => hs (List.mem_cons_of_mem _ hm))
        (fun hm => hf (List.mem_cons_of_mem _ hm)) ?_
      exact quiescent_step cfg s e
        (fun he => hs (he ▸ List.mem_cons_self _ _))
        (fun he => hf (he ▸ List.mem_cons_self _ _)) h

/-- C4: when cancel() is called before the host runner promise resolves,
with an activity (START or FINISH) scheduled, then over any continuation of
the trace in which no further start() or finish() request arrives — however
the runner later resolves, waits advance, timers fire or pending
continuations fire — no host start, resume or finish call is ever made, and
nothing throws (the developer-assert flag stays clear). -/
theorem cancel_before_resolve_suppresses :
    ∀ (cfg : RConfig) (e1 e2 : List Event),
      Event.runnerResolve ∉ e1 →
      (run cfg e1).scheduledActivity.isSome = true →
      Event.apiStart ∉ e2 →
      Event.apiFinish ∉ e2 →
      noHostSRF (run cfg (e1 ++ Event.apiCancel :: e2)).effects
      ∧ (run cfg (e1 ++ Event.apiCancel :: e2)).devError = false := by
  intro cfg e1 e2 h1 _hact h2s h2f
  have hres1 : (run cfg e1).runnerResolved = false :=
    foldl_runnerResolved_of_not_mem cfg e1 initState h1
  obtain ⟨hconts, _, hsrf, hps⟩ :=
    (machineInv_run cfg e1).2.2.2.2.1 hres1
  have hq2 : CancelledQuiescent (step cfg (run cfg e1) Event.apiCancel) := by
    show CancelledQuiescent (apiCancelF (run cfg e1))
    rw [apiCancelF_not_started (run cfg e1)
      (fun hc => by rw [hres1] at hc; exact Bool.noConfusion hc.1)]
    refine ⟨rfl, hconts, hsrf, ?_⟩
    rw [hps]
    intro hc
    cases hc
  have hrun : run cfg (e1 ++ Event.apiCancel :: e2)
      = e2.foldl (step cfg) (step cfg (run cfg e1) Event.apiCancel) := by
    unfold run
    rw [List.foldl_append, List.foldl_cons]
  rw [hrun]
  refine ⟨(quiescent_foldl cfg e2 _ h2s h2f hq2).2.2.1, ?_⟩
  rw [← hrun]
  exact run_devError cfg (e1 ++ Event.apiCancel :: e2)

/-- C4 witness: a START scheduled before resolution and then cancelled is
never delivered to the host runner even after the runner resolves and the
stale continuation fires. -/
theorem cancel_before_resolve_suppresses_witness :
    noHostSRF (run ⟨none, some "a", 0⟩
      ([Event.apiStart] ++ Event.apiCancel
        :: [Event.runnerResolve, Event.fireCont 0])).effects
    ∧ (run ⟨none, some "a", 0⟩
      ([Event.apiStart] ++ Event.apiCancel
        :: [Event.runnerResolve, Event.fireCont 0])).devError = false :=
  cancel_before_resolve_suppresses ⟨none, some "a", 0⟩ [Event.apiStart]
    [Event.runnerResolve, Event.fireCont 0]
    (by decide) (by decide) (by decide) (by decide)

/-! ## Claim theorems: dependency gating of host start (C1) -/

theorem resetFirstFrame_waits (s : RState) : (resetFirstFrame s).waits = s.waits := by
  unfold resetFirstFrame; split_ifs <;> rfl

theorem resetFirstFrame_seq (s : RState) : (resetFirstFrame s).seq = s.seq := by
  unfold resetFirstFrame; split_ifs <;> rfl

theorem resetFirstFrame_store (s : RState) : (resetFirstFrame s).store = s.store := by
  unfold resetFirstFrame; split_ifs <;> rfl

theorem resetFirstFrame_notifyLog (s : RState) :
    (resetFirstFrame s).notifyLog = s.notifyLog := by
  unfold resetFirstFrame; split_ifs <;> rfl

theorem resetFirstFrame_playState (s : RState) :
    (resetFirstFrame s).playState = s.playState := by
  unfold resetFirstFrame; split_ifs <;> rfl

theorem noSR_snoc {l : List Effect} {x : Effect} (h : ¬hasStartOrResume l)
    (h1 : x ≠ Effect.hostStart) (h2 : x ≠ Effect.hostResume) :
    ¬hasStartOrResume (l ++ [x]) := by
  intro hc
  rcases hc with hm | hm <;> rw [List.mem_append, List.mem_singleton] at hm
  · rcases hm with hm | hm
    · exact h (Or.inl hm)
    · exact h1 hm.symm
  · rcases hm with hm | hm
    · exact h (Or.inr hm)
    · exact h2 hm.symm

theorem mkWaitStage_dep (cfg : RConfig) (dep : String)
    (hdep : cfg.startAfterId = some dep) :
    mkWaitStage cfg = WStage.subscribing dep := by
  unfold mkWaitStage
  rw [hdep]

theorem notifyFinish_promises_sub (sq : AnimationSequence) (st : PromiseStore)
    (i : String) :
    ∀ kp, kp ∈ (AnimationSequence.notifyFinish sq st i).1.subscriptionPromises →
      kp ∈ sq.subscriptionPromises := by
  intro kp h
  unfold AnimationSequence.notifyFinish at h
  split_ifs at h
  · revert h
    split
    · intro h
      exact mem_eraseA _ _ _ h
    · intro h
      exact h
  · exact h

theorem waitFor_promises_keys (sq : AnimationSequence) (st : PromiseStore)
    (d : String) :
    ∀ kp, kp ∈ (AnimationSequence.waitFor sq st d).1.subscriptionPromises →
      kp ∈ sq.subscriptionPromises ∨ kp.1 = d := by
  intro kp
  unfold AnimationSequence.waitFor
  cases hl : lookupA sq.subscriptionPromises d
  · intro h
    rcases mem_setA _ _ _ _ h with hm | hm
    · right
      rw [hm]
    · left
      exact hm
  · intro h
    left
    exact h

theorem depInv_seqNotify (dep : String) (s : RState) (i : String)
    (h : DepInv dep s) : DepInv dep (seqNotify s i) := by
  obtain ⟨u1, u2, u3, u4, hn⟩ := h
  refine ⟨u1, u2, u3, ?_, ?_⟩
  · intro kp hkp
    exact u4 kp (notifyFinish_promises_sub s.seq s.store i kp hkp)
  · intro hlog
    have hlog2 : dep ∉ s.notifyLog := fun hm => hlog (List.mem_append_left _ hm)
    have hne : i ≠ dep := by
      intro he
      exact hlog (List.mem_append_right _ (by rw [he]; exact List.mem_singleton.mpr rfl))
    obtain ⟨n1, n2, n3, n4⟩ := hn hlog2
    have habs : lookupA s.seq.subscriptionPromises i = none := by
      apply lookupA_none_of_keys
      intro p hp hpk
      exact hne (hpk ▸ u4 p hp)
    have heq := notifyFinish_eq_of_absent s.seq s.store i habs
    refine ⟨?_, n2, n3, n4⟩
    show (AnimationSequence.notifyFinish s.seq s.store i).2.resolved = []
    rw [heq]
    exact n1

theorem depInv_notifyFinishR (dep : String) (cfg : RConfig) (s : RState)
    (h : DepInv dep s) : DepInv dep (notifyFinishR cfg s) := by
  cases htid : cfg.targetId with
  | none =>
      unfold notifyFinishR
      rw [htid]
      exact h
  | some i =>
      unfold notifyFinishR
      rw [htid]
      obtain ⟨u1, u2, u3, u4, hn⟩ := depInv_seqNotify dep s i h
      refine ⟨u1, u2, u3, u4, ?_⟩
      intro hlog
      obtain ⟨n1, n2, n3, n4⟩ := hn hlog
      exact ⟨n1, n2, noSR_snoc n3 (by simp) (by simp), n4⟩

theorem depInv_resetFirstFrame (dep : String) (s : RState)
    (h : DepInv dep s) : DepInv dep (resetFirstFrame s) := by
  obtain ⟨u1, u2, u3, u4, hn⟩ := h
  unfold resetFirstFrame
  split_ifs
  · refine ⟨u1, u2, u3, u4, ?_⟩
    intro hlog
    obtain ⟨n1, n2, n3, n4⟩ := hn hlog
    exact ⟨n1, n2, noSR_snoc n3 (by decide) (by decide), n4⟩
  · exact ⟨u1, u2, u3, u4, hn⟩

theorem depInv_playbackF (dep : String) (a : PlaybackActivity) (w : Option Nat)
    (s : RState) (ha : a = PlaybackActivity.start → ∃ wid, w = some wid)
    (h : DepInv dep s) : DepInv dep (playbackF a w s) := by
  obtain ⟨u1, u2, u3, u4, hn⟩ := h
  unfold playbackF
  dsimp only
  refine ⟨?_, ?_, u3, u4, ?_⟩
  · intro c hc hact
    by_cases hres : s.runnerResolved = true
    · rw [if_pos hres] at hc
      rcases List.mem_append.mp hc with hm | hm
      · exact u1 c hm hact
      · rw [List.mem_singleton] at hm
        subst hm
        exact ha hact
    · rw [if_neg hres] at hc
      exact u1 c hc hact
  · intro heq
    injection heq with heq2
    exact ha heq2
  · intro hlog
    exact hn hlog

theorem depInv_step (cfg : RConfig) (dep : String)
    (hdep : cfg.startAfterId = some dep) (s : RState) (e : Event)
    (h : DepInv dep s) : DepInv dep (step cfg s e) := by
  cases e with
  | apiApplyFirstFrame =>
      show DepInv dep (applyFirstFrameF s)
      obtain ⟨u1, u2, u3, u4, hn⟩ := h
      unfold applyFirstFrameF
      split_ifs
      · exact ⟨u1, u2, u3, u4, hn⟩
      · refine ⟨u1, u2, u3, u4, ?_⟩
        intro hlog
        obtain ⟨n1, n2, n3, n4⟩ := hn hlog
        exact ⟨n1, n2, noSR_snoc n3 (by decide) (by decide), n4⟩
  | apiStart =>
      show DepInv dep (apiStartF cfg s)
      unfold apiStartF
      split_ifs
      · exact h
      · apply depInv_playbackF dep PlaybackActivity.start (some s.nextWait) _
          (fun _ => ⟨s.nextWait, rfl⟩)
        obtain ⟨u1, u2, u3, u4, hn⟩ := h
        refine ⟨u1, u2, ?_, u4, ?_⟩
        · intro w2 d2 hmem
          rcases List.mem_append.mp hmem with hm | hm
          · exact u3 w2 d2 hm
          · rw [List.mem_singleton] at hm
            rw [mkWaitStage_dep cfg dep hdep] at hm
            simp only [Prod.mk.injEq, WStage.subscribing.injEq] at hm
            exact hm.2
        · intro hlog
          obtain ⟨n1, n2, n3, n4⟩ := hn hlog
          refine ⟨n1, ?_, n3, n4⟩
          intro wp hwp
          rcases List.mem_append.mp hwp with hm | hm
          · exact n2 wp hm
          · rw [List.mem_singleton] at hm
            subst hm
            rw [mkWaitStage_dep cfg dep hdep]
            exact Or.inl ⟨dep, rfl⟩
  | apiFinish =>
      show DepInv dep (apiFinishF cfg s)
      unfold apiFinishF
      apply depInv_playbackF dep PlaybackActivity.finish none _ (fun heq => nomatch heq)
      apply depInv_resetFirstFrame
      split_ifs
      · exact depInv_notifyFinishR dep cfg s h
      · exact h
  | apiCancel =>
      show DepInv dep (apiCancelF s)
      obtain ⟨u1, u2, u3, u4, hn⟩ := h
      unfold apiCancelF
      dsimp only
      split_ifs with hstart hres
      · refine ⟨u1, ?_, u3, u4, ?_⟩
        · intro heq
          exact Option.noConfusion heq
        · intro hlog
          obtain ⟨n1, n2, n3, n4⟩ := hn hlog
          refine ⟨n1, n2, noSR_snoc n3 (by decide) (by decide), ?_⟩
          intro hp
          exact WebAnimationPlayState.noConfusion hp
      · refine ⟨u1, ?_, u3, u4, ?_⟩
        · intro heq
          exact Option.noConfusion heq
        · intro hlog
          exact hn hlog
      · refine ⟨u1, ?_, u3, u4, ?_⟩
        · intro heq
          exact Option.noConfusion heq
        · intro hlog
          exact hn hlog
  | runnerResolve =>
      show DepInv dep (runnerResolveF s)
      obtain ⟨u1, u2, u3, u4, hn⟩ := h
      unfold runnerResolveF
      split_ifs
      · exact ⟨u1, u2, u3, u4, hn⟩
      · cases hslot : s.scheduledActivity with
        | none =>
            refine ⟨u1, ?_, u3, u4, ?_⟩
            · intro heq
              exact Option.noConfusion heq
            · intro hlog
              exact hn hlog
        | some a =>
            refine ⟨?_, ?_, u3, u4, ?_⟩
            · intro c hc hact
              rcases List.mem_append.mp hc with hm | hm
              · exact u1 c hm hact
              · rw [List.mem_singleton] at hm
                subst hm
                have hact2 : a = PlaybackActivity.start := hact
                exact u2 (by rw [hslot, hact2])
            · intro heq
              injection heq with heq2
              exact u2 (by rw [hslot, heq2])
            · intro hlog
              exact hn hlog
  | notify i =>
      show DepInv dep (seqNotify s i)
      exact depInv_seqNotify dep s i h
  | advanceWait w =>
      show DepInv dep (advanceWaitF cfg w s)
      unfold advanceWaitF
      split
      · rename_i d heq
        obtain ⟨u1, u2, u3, u4, hn⟩ := h
        have hd : d = dep := u3 w d (lookupA_mem _ _ _ heq)
        refine ⟨u1, u2, ?_, ?_, ?_⟩
        · intro w2 d2 hmem
          rcases mem_setA _ _ _ _ hmem with hm | hm
          · injection hm with hm1 hm2
            exact WStage.noConfusion hm2
          · exact u3 w2 d2 hm
        · intro kp hkp
          rcases waitFor_promises_keys s.seq s.store d kp hkp with hm | hm
          · exact u4 kp hm
          · exact hm.trans hd
        · intro hlog
          obtain ⟨n1, n2, n3, n4⟩ := hn hlog
          refine ⟨?_, ?_, n3, n4⟩
          · show (AnimationSequence.waitFor s.seq s.store d).2.1.resolved = []
            exact (waitFor_preserves_resolved s.seq s.store d).trans n1
          · intro wp hwp
            rcases mem_setA _ _ _ _ hwp with hm | hm
            · subst hm
              exact Or.inr ⟨_, rfl⟩
            · exact n2 wp hm
      · rename_i p heq
        split_ifs with hp hdel
        · obtain ⟨u1, u2, u3, u4, hn⟩ := h
          refine ⟨u1, u2, ?_, u4, ?_⟩
          · intro w2 d2 hmem
            rcases mem_setA _ _ _ _ hmem with hm | hm
            · injection hm with hm1 hm2
              exact WStage.noConfusion hm2
            · exact u3 w2 d2 hm
          · intro hlog
            exfalso
            obtain ⟨n1, _, _, _⟩ := hn hlog
            rw [n1] at hp
            cases hp
        · obtain ⟨u1, u2, u3, u4, hn⟩ := h
          refine ⟨u1, u2, ?_, u4, ?_⟩
          · intro w2 d2 hmem
            rcases mem_setA _ _ _ _ hmem with hm | hm
            · injection hm with hm1 hm2
              exact WStage.noConfusion hm2
            · exact u3 w2 d2 hm
          · intro hlog
            exfalso
            obtain ⟨n1, _, _, _⟩ := hn hlog
            rw [n1] at hp
            cases hp
        · exact h
      · exact h
  | timerFire w =>
      show DepInv dep (timerFireF w s)
      unfold timerFireF
      split
      · rename_i heq
        obtain ⟨u1, u2, u3, u4, hn⟩ := h
        refine ⟨u1, u2, ?_, u4, ?_⟩
        · intro w2 d2 hmem
          rcases mem_setA _ _ _ _ hmem with hm | hm
          · injection hm with hm1 hm2
            exact WStage.noConfusion hm2
          · exact u3 w2 d2 hm
        · intro hlog
          exfalso
          obtain ⟨_, n2, _, _⟩ := hn hlog
          rcases n2 _ (lookupA_mem _ _ _ heq) with ⟨d, hd⟩ | ⟨p, hp2⟩
          · exact WStage.noConfusion hd
          · exact WStage.noConfusion hp2
      · exact h
  | fireCont i =>
      show DepInv dep (fireContF cfg i s)
      unfold fireContF
      split
      · exact h
      · rename_i c hget
        split_ifs with hwait hslot
        · obtain ⟨u1, u2, u3, u4, hn⟩ := h
          cases hact : c.activity with
          | start =>
              unfold execA startWhenReadyF
              dsimp only
              refine ⟨?_, ?_, ?_, ?_, ?_⟩
              · intro c2 hc2 hact2
                rw [resetFirstFrame_conts] at hc2
                exact u1 c2 (mem_of_mem_eraseIdx hc2) hact2
              · intro heq
                rw [resetFirstFrame_scheduledActivity] at heq
                exact Option.noConfusion heq
              · intro w2 d2 hmem
                rw [resetFirstFrame_waits] at hmem
                exact u3 w2 d2 hmem
              · intro kp hkp
                rw [resetFirstFrame_seq] at hkp
                exact u4 kp hkp
              · intro hlog
                exfalso
                rw [resetFirstFrame_notifyLog] at hlog
                obtain ⟨n1, n2, n3, n4⟩ := hn hlog
                obtain ⟨wid, hwid⟩ := u1 c (List.get?_mem hget) hact
                rw [hwid] at hwait
                rcases n2 _ (lookupA_mem _ _ _ hwait) with ⟨d, hd⟩ | ⟨p, hp2⟩
                · exact WStage.noConfusion hd
                · exact WStage.noConfusion hp2
          | finish =>
              unfold execA finishWhenReadyF
              split_ifs with hrun
              · apply depInv_notifyFinishR
                refine ⟨?_, ?_, u3, u4, ?_⟩
                · intro c2 hc2 hact2
                  exact u1 c2 (mem_of_mem_eraseIdx hc2) hact2
                · intro heq
                  exact Option.noConfusion heq
                · intro hlog
                  exfalso
                  obtain ⟨n1, n2, n3, n4⟩ := hn hlog
                  exact n4 hrun
              · refine ⟨?_, ?_, u3, u4, ?_⟩
                · intro c2 hc2 hact2
                  exact u1 c2 (mem_of_mem_eraseIdx hc2) hact2
                · intro heq
                  exact Option.noConfusion heq
                · intro hlog
                  exact hn hlog
        · obtain ⟨u1, u2, u3, u4, hn⟩ := h
          refine ⟨?_, u2, u3, u4, ?_⟩
          · intro c2 hc2 hact2
            exact u1 c2 (mem_of_mem_eraseIdx hc2) hact2
          · intro hlog
            exact hn hlog
        · exact h
  | hostFinished =>
      show DepInv dep (hostFinishedF cfg s)
      unfold hostFinishedF
      split_ifs with hcond
      · apply depInv_notifyFinishR
        obtain ⟨u1, u2, u3, u4, hn⟩ := h
        refine ⟨u1, u2, u3, u4, ?_⟩
        intro hlog
        exfalso
        exact (hn hlog).2.2.2 hcond.2
      · exact h

theorem depInv_run (cfg : RConfig) (dep : String)
    (hdep : cfg.startAfterId = some dep) (events : List Event) :
    DepInv dep (run cfg events) := by
  suffices hgen : ∀ (l : List Event) (s : RState), DepInv dep s →
      DepInv dep (l.foldl (step cfg) s) by
    refine hgen events initState ?_
    refine ⟨?_, ?_, ?_, ?_, ?_⟩
    · intro c hc
      cases hc
    · intro heq
      exact Option.noConfusion heq
    · intro w d hm
      cases hm
    · intro kp hkp
      cases hkp
    · intro _
      refine ⟨rfl, ?_, ?_, ?_⟩
      · intro wp hwp
        cases hwp
      · intro hc
        rcases hc with hm | hm <;> cases hm
      · intro hc
        cases hc
  intro l
  induction l with
  | nil => intro s hs; exact hs
  | cons e es ih =>
      intro s hs
      rw [List.foldl_cons]
      exact ih _ (depInv_step cfg dep hdep s e hs)

theorem timerGateInv_notifyFinishR (cfg : RConfig) (s : RState)
    (h : TimerGateInv s) : TimerGateInv (notifyFinishR cfg s) := by
  obtain ⟨u1, u2, u3, u4, u5⟩ := h
  cases htid : cfg.targetId with
  | none =>
      unfold notifyFinishR
      rw [htid]
      exact ⟨u1, u2, u3, u4, u5⟩
  | some i =>
      unfold notifyFinishR
      rw [htid]
      exact ⟨u1, u2, u3, noSR_snoc u4 (by simp) (by simp), u5⟩

theorem timerGateInv_resetFirstFrame (s : RState)
    (h : TimerGateInv s) : TimerGateInv (resetFirstFrame s) := by
  obtain ⟨u1, u2, u3, u4, u5⟩ := h
  unfold resetFirstFrame
  split_ifs
  · exact ⟨u1, u2, u3, noSR_snoc u4 (by decide) (by decide), u5⟩
  · exact ⟨u1, u2, u3, u4, u5⟩

theorem timerGateInv_playbackF (a : PlaybackActivity) (w : Option Nat) (s : RState)
    (ha : a = PlaybackActivity.start → ∃ wid, w = some wid)
    (h : TimerGateInv s) : TimerGateInv (playbackF a w s) := by
  obtain ⟨u1, u2, u3, u4, u5⟩ := h
  unfold playbackF
  dsimp only
  refine ⟨?_, ?_, u3, u4, u5⟩
  · intro c hc hact
    by_cases hres : s.runnerResolved = true
    · rw [if_pos hres] at hc
      rcases List.mem_append.mp hc with hm | hm
      · exact u1 c hm hact
      · rw [List.mem_singleton] at hm
        subst hm
        exact ha hact
    · rw [if_neg hres] at hc
      exact u1 c hc hact
  · intro heq
    injection heq with heq2
    exact ha heq2

theorem timerGateInv_step (cfg : RConfig) (dep : String)
    (hdep : cfg.startAfterId = some dep) (hdelay : 0 < cfg.delay)
    (s : RState) (e : Event) (he : isTimerFire e = false)
    (h : TimerGateInv s) : TimerGateInv (step cfg s e) := by
  obtain ⟨u1, u2, u3, u4, u5⟩ := h
  cases e with
  | apiApplyFirstFrame =>
      show TimerGateInv (applyFirstFrameF s)
      unfold applyFirstFrameF
      split_ifs
      · exact ⟨u1, u2, u3, u4, u5⟩
      · exact ⟨u1, u2, u3, noSR_snoc u4 (by decide) (by decide), u5⟩
  | apiStart =>
      show TimerGateInv (apiStartF cfg s)
      unfold apiStartF
      split_ifs
      · exact ⟨u1, u2, u3, u4, u5⟩
      · apply timerGateInv_playbackF PlaybackActivity.start (some s.nextWait) _
          (fun _ => ⟨s.nextWait, rfl⟩)
        refine ⟨u1, u2, ?_, u4, u5⟩
        intro wp hwp
        rcases List.mem_append.mp hwp with hm | hm
        · exact u3 wp hm
        · rw [List.mem_singleton] at hm
          subst hm
          rw [mkWaitStage_dep cfg dep hdep]
          intro hc
          exact WStage.noConfusion hc
  | apiFinish =>
      show TimerGateInv (apiFinishF cfg s)
      unfold apiFinishF
      apply timerGateInv_playbackF PlaybackActivity.finish none _ (fun heq => nomatch heq)
      apply timerGateInv_resetFirstFrame
      split_ifs
      · exact timerGateInv_notifyFinishR cfg s ⟨u1, u2, u3, u4, u5⟩
      · exact ⟨u1, u2, u3, u4, u5⟩
  | apiCancel =>
      show TimerGateInv (apiCancelF s)
      unfold apiCancelF
      dsimp only
      split_ifs with hstart hres
      · exfalso
        unfold hasStartedP at hstart
        rcases hstart with hst | hst
        · exact Option.noConfusion hst
        · exact u5 hst.2
      · exfalso
        unfold hasStartedP at hstart
        rcases hstart with hst | hst
        · exact Option.noConfusion hst
        · exact hres hst.1
      · refine ⟨u1, ?_, u3, u4, u5⟩
        intro heq
        exact Option.noConfusion heq
  | runnerResolve =>
      show TimerGateInv (runnerResolveF s)
      unfold runnerResolveF
      split_ifs
      · exact ⟨u1, u2, u3, u4, u5⟩
      · cases hslot : s.scheduledActivity with
        | none =>
            refine ⟨u1, ?_, u3, u4, u5⟩
            intro heq
            exact Option.noConfusion heq
        | some a =>
            refine ⟨?_, ?_, u3, u4, u5⟩
            · intro c hc hact
              rcases List.mem_append.mp hc with hm | hm
              · exact u1 c hm hact
              · rw [List.mem_singleton] at hm
                subst hm
                have hact2 : a = PlaybackActivity.start := hact
                exact u2 (by rw [hslot, hact2])
            · intro heq
              injection heq with heq2
              exact u2 (by rw [hslot, heq2])
  | notify i =>
      show TimerGateInv (seqNotify s i)
      exact ⟨u1, u2, u3, u4, u5⟩
  | advanceWait w =>
      show TimerGateInv (advanceWaitF cfg w s)
      unfold advanceWaitF
      split
      · rename_i d heq
        refine ⟨u1, u2, ?_, u4, u5⟩
        intro wp hwp
        rcases mem_setA _ _ _ _ hwp with hm | hm
        · subst hm
          intro hc
          exact WStage.noConfusion hc
        · exact u3 wp hm
      · rename_i p heq
        split_ifs with hp
        · refine ⟨u1, u2, ?_, u4, u5⟩
          intro wp hwp
          rcases mem_setA _ _ _ _ hwp with hm | hm
          · subst hm
            intro hc
            exact WStage.noConfusion hc
          · exact u3 wp hm
        · exact ⟨u1, u2, u3, u4, u5⟩
      · exact ⟨u1, u2, u3, u4, u5⟩
  | timerFire w =>
      exact absurd he (by simp [isTimerFire])
  | fireCont i =>
      show TimerGateInv (fireContF cfg i s)
      unfold fireContF
      split
      · exact ⟨u1, u2, u3, u4, u5⟩
      · rename_i c hget
        split_ifs with hwait hslot
        · cases hact : c.activity with
          | start =>
              exfalso
              obtain ⟨wid, hwid⟩ := u1 c (List.get?_mem hget) hact
              rw [hwid] at hwait
              exact u3 _ (lookupA_mem _ _ _ hwait) rfl
          | finish =>
              unfold execA finishWhenReadyF
              split_ifs with hrun
              · exact absurd hrun u5
              · refine ⟨?_, ?_, u3, u4, u5⟩
                · intro c2 hc2 hact2
                  exact u1 c2 (mem_of_mem_eraseIdx hc2) hact2
                · intro heq
                  exact Option.noConfusion heq
        · refine ⟨?_, u2, u3, u4, u5⟩
          intro c2 hc2 hact2
          exact u1 c2 (mem_of_mem_eraseIdx hc2) hact2
        · exact ⟨u1, u2, u3, u4, u5⟩
  | hostFinished =>
      show TimerGateInv (hostFinishedF cfg s)
      unfold hostFinishedF
      split_ifs with hcond
      · exact absurd hcond.2 u5
      · exact ⟨u1, u2, u3, u4, u5⟩

theorem timerGateInv_foldl (cfg : RConfig) (dep : String)
    (hdep : cfg.startAfterId = some dep) (hdelay : 0 < cfg.delay) :
    ∀ (l : List Event) (s : RState), (∀ e ∈ l, isTimerFire e = false) →
      TimerGateInv s → TimerGateInv (l.foldl (step cfg) s) := by
  intro l
  induction l with
  | nil => intro s _ h; exact h
  | cons e es ih =>
      intro s hl h
      rw [List.foldl_cons]
      refine ih _ (fun e2 he2 => hl e2 (List.mem_cons_of_mem _ he2)) ?_
      exact timerGateInv_step cfg dep hdep hdelay s e
        (hl e (List.mem_cons_self _ _)) h

/-- C1: for every runner configured with a startAfterId dependency, in every
trace of the machine the host runner receives no start or resume call as
long as notifyFinish has never been invoked on the shared sequence for the
dependency id; and additionally, when a positive delay is configured, no
start or resume is issued in any continuation of such a trace in which the
timer never fires (the timer delay is chained after the dependency wait, so
timer expiries that occur while the dependency is still pending cannot
unblock the start either). -/
theorem dependency_gates_host_start (cfg : RConfig) (dep : String)
    (hdep : cfg.startAfterId = some dep) :
    (∀ events : List Event,
        dep ∉ (run cfg events).notifyLog →
        ¬hasStartOrResume (run cfg events).effects)
    ∧ (0 < cfg.delay →
        ∀ p q : List Event,
          dep ∉ (run cfg p).notifyLog →
          (∀ e ∈ q, isTimerFire e = false) →
          ¬hasStartOrResume (run cfg (p ++ q)).effects) := by
  constructor
  · intro events hlog
    exact ((depInv_run cfg dep hdep events).2.2.2.2 hlog).2.2.1
  · intro hdelay p q hlog hq
    obtain ⟨u1, u2, u3, u4, hn⟩ := depInv_run cfg dep hdep p
    obtain ⟨n1, n2, n3, n4⟩ := hn hlog
    have htg : TimerGateInv (run cfg p) := by
      refine ⟨u1, u2, ?_, n3, n4⟩
      intro wp hwp hc
      rcases n2 wp hwp with ⟨d, hd⟩ | ⟨p2, hp2⟩
      · rw [hc] at hd
        exact WStage.noConfusion hd
      · rw [hc] at hp2
        exact WStage.noConfusion hp2
    have hrun : run cfg (p ++ q) = q.foldl (step cfg) (run cfg p) := by
      unfold run
      rw [List.foldl_append]
    rw [hrun]
    exact (timerGateInv_foldl cfg dep hdep hdelay q (run cfg p) hq htg).2.2.2.1

/-- C1 witness: with dependency "a" and a 100 ms delay, a trace that starts
the runner and fires its continuation without any notify produces no host
start or resume; and a trace continuation that notifies "a" but in which the
timer never fires produces none either. -/
theorem dependency_gates_host_start_witness :
    ¬hasStartOrResume (run ⟨none, some "a", 100⟩
      [Event.runnerResolve, Event.apiStart, Event.advanceWait 0,
       Event.fireCont 0]).effects
    ∧ ¬hasStartOrResume (run ⟨none, some "a", 100⟩
      ([Event.runnerResolve, Event.apiStart] ++
       [Event.advanceWait 0, Event.notify "a", Event.advanceWait 0,
        Event.fireCont 0])).effects :=
  ⟨(dependency_gates_host_start ⟨none, some "a", 100⟩ "a" rfl).1 _ (by decide),
   (dependency_gates_host_start ⟨none, some "a", 100⟩ "a" rfl).2 (by decide) _ _
     (by decide) (by decide)⟩

end StoryAnimation
